import Mathlib

/-!
Verification development for the live-stream end-of-stream detection core
(`WebSocketService` and its delivery collaborators).

The state of the service (clients map, event rooms, end-of-stream timers) is
embedded shallowly: JavaScript `Map`s become association lists, `Set`s of
client ids become insertion-ordered duplicate-free lists, and wall-clock
times are natural numbers of milliseconds.  Timer firing and the periodic
broadcaster tick are explicit operations of a step function, so temporal
claims become statements about traces of operations.
-/

set_option autoImplicit false

section AssocMap

variable {α : Type} {β : Type} [DecidableEq α]

/-- Lookup in an association list, mirroring JavaScript `Map.get`. -/
def alookup : List (α × β) → α → Option β
  | [], _ => none
  | (k, v) :: t, a => if k = a then some v else alookup t a

/-- Insert or replace, mirroring JavaScript `Map.set` (replaces in place,
appends a new entry when the key is absent). -/
def aset : List (α × β) → α → β → List (α × β)
  | [], a, b => [(a, b)]
  | (k, v) :: t, a, b => if k = a then (a, b) :: t else (k, v) :: aset t a b

/-- Delete, mirroring JavaScript `Map.delete`. -/
def aerase : List (α × β) → α → List (α × β)
  | [], _ => []
  | (k, v) :: t, a => if k = a then aerase t a else (k, v) :: aerase t a

/-- Number of entries carrying a given key (used to express that the timer
table never holds two live timers for one event). -/
def countKey : List (α × β) → α → Nat
  | [], _ => 0
  | (k, _) :: t, a => (if k = a then 1 else 0) + countKey t a

/-- The keys of an association list are pairwise distinct (always true of a
JavaScript `Map`). -/
def keysNodup (l : List (α × β)) : Prop :=
  (l.map Prod.fst).Nodup

end AssocMap

/-- Add a member to a room, mirroring JavaScript `Set.add` (insertion order,
no duplicates). -/
def addMember (l : List String) (c : String) : List String :=
  if c ∈ l then l else l ++ [c]

/-- Remove a member from a room, mirroring JavaScript `Set.delete`. -/
def removeMember : List String → String → List String
  | [], _ => []
  | x :: t, c => if x = c then removeMember t c else x :: removeMember t c

/-- The inbound `time_sync` message (the join message), from the
`TimeSyncMessage` interface.  All times are milliseconds since the epoch. -/
structure TimeSyncMessage where
  eventId : Nat
  currentTime : Nat
  timestamp : Nat
  eventStartTime : Nat
  eventEndTime : Nat
  deriving DecidableEq, Repr

/-- One tracked connection, from the `ClientConnection` interface.  The
`wsOpen` flag models `ws.readyState === WebSocket.OPEN`. -/
structure ClientConnection where
  wsOpen : Bool
  eventId : Nat
  eventStartTime : Nat
  eventEndTime : Nat
  deriving DecidableEq, Repr

/-- Messages the server sends to a client. -/
inductive OutMsg where
  | connected (clientId : String) (timestamp : Nat)
  | eventEnded (eventId : Nat) (message : Option String) (timestamp : Nat)
  | timeSync (eventId : Nat) (currentTimeSec : Nat) (timestamp : Nat)
  deriving DecidableEq, Repr

/-- Payload of the durable end-of-stream job, from the
`EventEndNotificationData` interface of the task client. -/
structure EventEndNotificationData where
  eventId : Nat
  eventName : String
  hostEmail : String
  hostId : Nat
  deriving DecidableEq, Repr

/-- The BullMQ job options used by the task client. -/
structure JobOptions where
  delay : Nat
  removeOnComplete : Nat
  removeOnFail : Nat
  deriving DecidableEq, Repr

/-- A durable delayed job as handed to the queue. -/
structure Job where
  name : String
  data : EventEndNotificationData
  opts : JobOptions
  deriving DecidableEq, Repr

/-- Task tag from `TASK` in `src/task/tasker.ts`. -/
def TASK.EventEndNotification : String := "event_end_notification"

/-- `scheduleEventEndNotification` from `src/task/client`: builds the durable
delayed job submitted to the default queue (30 s default delay, retention of
the last 10 completed and 5 failed jobs). -/
def scheduleEventEndNotificationJob (data : EventEndNotificationData)
    (delay : Nat := 30000) : Job :=
  { name := TASK.EventEndNotification
    data := data
    opts := { delay := delay, removeOnComplete := 10, removeOnFail := 5 } }

/-- The in-app notification record created for the host, as passed to
`notificationService.create`. -/
structure InAppNotification where
  user_id : Nat
  notification_type : String
  link : String
  event_id : Nat
  title : String
  message : String
  deriving DecidableEq, Repr

/-- The host row joined onto an event by `eventService.getEvent`. -/
structure EventHost where
  id : Nat
  email : String
  deriving DecidableEq, Repr

/-- The event record returned by `eventService.getEvent` (the fields the
service reads). -/
structure EventRecord where
  event_name : String
  host : Option EventHost
  deriving DecidableEq, Repr

/-- Externally visible effects of a step of the service. -/
inductive Output where
  | sent (clientId : String) (msg : OutMsg)
  | closed (clientId : String) (code : Nat) (reason : String)
  | deliveryInvoked (eventId : Nat)
  | enqueuedJob (j : Job)
  | createdNotification (n : InAppNotification)
  | clearedLobbyLogs (eventId : Nat)
  | clearedLogs (eventId : Nat)
  deriving DecidableEq, Repr

/-- Number of times the fired detector invoked the delivery path
(`sendEventEndNotification`) for a given event in a list of outputs. -/
def deliveryCount (outs : List Output) (eventId : Nat) : Nat :=
  outs.countP (fun o =>
    match o with
    | Output.deliveryInvoked e => decide (e = eventId)
    | _ => false)

namespace WebSocketService

/-- The mutable state of `WebSocketService`: the `clients` map, the
`eventRooms` map and the `eventEndTimers` table.  A timer-table entry maps an
event id to the absolute time at which its debounce callback is due. -/
structure WSState where
  clients : List (String × ClientConnection)
  eventRooms : List (Nat × List String)
  eventEndTimers : List (Nat × Nat)
  deriving DecidableEq, Repr

/-- The state at service start: all maps empty. -/
def initialState : WSState := ⟨[], [], []⟩

/-- `clearEventEndTimer`: cancel and forget the pending end timer for an
event, a no-op when none exists. -/
def clearEventEndTimer (s : WSState) (eventId : Nat) : WSState :=
  { s with eventEndTimers := aerase s.eventEndTimers eventId }

/-- `scheduleEventEndNotification` (the service method): clear any existing
timer for the event and arm a fresh 30-second one. -/
def scheduleEventEndNotification (s : WSState) (eventId : Nat) (now : Nat) :
    WSState :=
  let s1 := clearEventEndTimer s eventId
  { s1 with eventEndTimers := aset s1.eventEndTimers eventId (now + 30000) }

/-- `handleMessage`: the join path.  A message whose (truthy) `eventEndTime`
is strictly in the past is rejected with an `event_ended` message and a
normal-closure close; otherwise the client is recorded, added to the event
room (created on demand), and any pending end timer for that event is
cancelled. -/
def handleMessage (s : WSState) (clientId : String) (m : TimeSyncMessage)
    (now : Nat) : WSState × List Output :=
  if m.eventEndTime ≠ 0 ∧ now > m.eventEndTime then
    (s, [Output.sent clientId (OutMsg.eventEnded m.eventId none now),
         Output.closed clientId 1000 "Event has already ended"])
  else
    let s1 := { s with
      clients := aset s.clients clientId
        ⟨true, m.eventId, m.eventStartTime, m.eventEndTime⟩ }
    let oldRoom := (alookup s1.eventRooms m.eventId).getD []
    let s2 := { s1 with
      eventRooms := aset s1.eventRooms m.eventId (addMember oldRoom clientId) }
    (clearEventEndTimer s2 m.eventId, [])

/-- `removeClient`: the leave path, run on socket close or error.  Removes
the connection from its room; when the room empties it is deleted and the
end-of-stream timer is armed; the client entry is always dropped. -/
def removeClient (s : WSState) (clientId : String) (now : Nat) : WSState :=
  match alookup s.clients clientId with
  | none => { s with clients := aerase s.clients clientId }
  | some client =>
    let s1 :=
      match alookup s.eventRooms client.eventId with
      | none => s
      | some room =>
        let room1 := removeMember room clientId
        if room1 = [] then
          scheduleEventEndNotification
            { s with eventRooms := aerase s.eventRooms client.eventId }
            client.eventId now
        else
          { s with eventRooms := aset s.eventRooms client.eventId room1 }
    { s1 with clients := aerase s1.clients clientId }

/-- `sendEventEndNotification`: the delivery path run inside the fired
debounce callback.  When the event lookup fails (event missing or without a
host) nothing is produced; otherwise one durable job and one in-app
notification are produced. -/
def sendEventEndNotification (eventId : Nat) (ev : Option EventRecord) :
    List Output :=
  match ev with
  | none => []
  | some e =>
    match e.host with
    | none => []
    | some h =>
      [Output.enqueuedJob
        (scheduleEventEndNotificationJob
          ⟨eventId, e.event_name, h.email, h.id⟩),
       Output.createdNotification
        { user_id := h.id
          notification_type := "system"
          link := "/concepts/event/event-edit/" ++ toString eventId
          event_id := eventId
          title := "Event Ended"
          message := "Your event \"" ++ e.event_name ++
            "\" stream has ended. All viewers have left the webinar." }]

/-- The debounce callback: if a timer for the event is still armed and due,
it invokes the delivery path once, clears the telemetry logs, and removes
the timer-table entry; otherwise (cancelled or not yet due) nothing runs.
The event/host lookup result is passed in as `ev`. -/
def fireEventEndTimer (s : WSState) (eventId : Nat) (now : Nat)
    (ev : Option EventRecord) : WSState × List Output :=
  match alookup s.eventEndTimers eventId with
  | none => (s, [])
  | some fireAt =>
    if now ≥ fireAt then
      ({ s with eventEndTimers := aerase s.eventEndTimers eventId },
       Output.deliveryInvoked eventId :: sendEventEndNotification eventId ev
         ++ [Output.clearedLobbyLogs eventId, Output.clearedLogs eventId])
    else (s, [])

/-- `getEventClients`: room size, `0` when no room entry exists. -/
def getEventClients (s : WSState) (eventId : Nat) : Nat :=
  match alookup s.eventRooms eventId with
  | some room => room.length
  | none => 0

/-- `getTotalClients`: total tracked connections. -/
def getTotalClients (s : WSState) : Nat :=
  s.clients.length

/-- `broadcastToEvent`: send a message to every open tracked member of a
room. -/
def broadcastToEvent (s : WSState) (eventId : Nat) (msg : OutMsg) :
    List Output :=
  match alookup s.eventRooms eventId with
  | none => []
  | some room =>
    room.filterMap (fun c =>
      match alookup s.clients c with
      | some client =>
        if client.wsOpen then some (Output.sent c msg) else none
      | none => none)

/-- The effect of `ws.close()` on the sockets of a room's members: every
open tracked member's socket leaves the open state.  The map entries
themselves (event id and times) are untouched. -/
def closeRoomClients (clients : List (String × ClientConnection))
    (room : List String) : List (String × ClientConnection) :=
  room.foldl (fun cl c =>
    match alookup cl c with
    | some client =>
      if client.wsOpen then aset cl c { client with wsOpen := false }
      else cl
    | none => cl) clients

/-- `kickOutParticipants`: send `event_ended` to every open tracked member,
close each such socket with code 1000, and delete the room entry.  The
clients map itself is not touched beyond the sockets transitioning out of
the open state. -/
def kickOutParticipants (s : WSState) (eventId : Nat) (now : Nat) :
    WSState × List Output :=
  match alookup s.eventRooms eventId with
  | none => (s, [])
  | some room =>
    let kickMsg := OutMsg.eventEnded eventId
      (some "Event has ended. You will be disconnected.") now
    let outs := room.flatMap (fun c =>
      match alookup s.clients c with
      | some client =>
        if client.wsOpen then
          [Output.sent c kickMsg, Output.closed c 1000 "Event ended"]
        else []
      | none => [])
    ({ s with clients := closeRoomClients s.clients room,
              eventRooms := aerase s.eventRooms eventId }, outs)

/-- One iteration of the scan in `checkAndKickExpiredEvents`: skip empty
rooms, skip rooms whose first member is untracked or carries a falsy (zero)
start or end time, and kick the room when the event end time has passed. -/
def kickScanStep (now : Nat) (acc : WSState × List Output)
    (entry : Nat × List String) : WSState × List Output :=
  if entry.2 = [] then acc
  else
    match entry.2.head? with
    | none => acc
    | some firstId =>
      match alookup acc.1.clients firstId with
      | none => acc
      | some fc =>
        if fc.eventStartTime ≠ 0 ∧ fc.eventEndTime ≠ 0 then
          if now > fc.eventEndTime then
            ((kickOutParticipants acc.1 entry.1 now).1,
             acc.2 ++ (kickOutParticipants acc.1 entry.1 now).2)
          else acc
        else acc

/-- `checkAndKickExpiredEvents`: scan all rooms and kick those whose event
has ended. -/
def checkAndKickExpiredEvents (s : WSState) (now : Nat) :
    WSState × List Output :=
  s.eventRooms.foldl (kickScanStep now) (s, [])

/-- The body of the 5-second interval installed by `startTimeBroadcast`:
first the expiry scan, then a `time_sync` broadcast to every remaining
non-empty room. -/
def broadcastTick (s : WSState) (now : Nat) : WSState × List Output :=
  let s1 := (checkAndKickExpiredEvents s now).1
  let outs2 := s1.eventRooms.flatMap (fun entry =>
    if entry.2.length > 0 then
      broadcastToEvent s1 entry.1 (OutMsg.timeSync entry.1 (now / 1000) now)
    else [])
  (s1, (checkAndKickExpiredEvents s now).2 ++ outs2)

/-- Raw data arriving on a socket: either unparseable (JSON parse failure)
or a well-formed `time_sync` message. -/
inductive Inbound where
  | malformed (raw : String)
  | wellFormed (m : TimeSyncMessage)
  deriving DecidableEq, Repr

/-- The operations serialized by the service owner: an inbound message, a
socket close (or error), a due debounce callback, and a broadcaster tick. -/
inductive Op where
  | message (clientId : String) (inb : Inbound) (now : Nat)
  | close (clientId : String) (now : Nat)
  | fire (eventId : Nat) (now : Nat) (ev : Option EventRecord)
  | tick (now : Nat)
  deriving DecidableEq, Repr

/-- One serialized step of the service.  A malformed message is logged and
ignored: no state change, no outputs, the connection stays open. -/
def step (s : WSState) : Op → WSState × List Output
  | Op.message _ (Inbound.malformed _) _ => (s, [])
  | Op.message cid (Inbound.wellFormed m) now => handleMessage s cid m now
  | Op.close cid now => (removeClient s cid now, [])
  | Op.fire e now ev => fireEventEndTimer s e now ev
  | Op.tick now => broadcastTick s now

/-- Run a list of operations, concatenating their outputs. -/
def run (s : WSState) : List Op → WSState × List Output
  | [] => (s, [])
  | op :: ops =>
    let p := step s op
    let q := run p.1 ops
    (q.1, p.2 ++ q.2)

/-- A join is a connection's first valid message: its client id is not yet
tracked.  Other operations are unconstrained. -/
def OpFresh (s : WSState) : Op → Prop
  | Op.message cid (Inbound.wellFormed _) _ => alookup s.clients cid = none
  | _ => True

/-- States reachable from the initial state under the protocol discipline
that a join is a connection's first message. -/
inductive Reach : WSState → Prop where
  | init : Reach initialState
  | next (s : WSState) (op : Op) (h : Reach s) (hfresh : OpFresh s op) :
      Reach (step s op).1

end WebSocketService

/-! ## Association map lemmas -/

section AssocMapLemmas

variable {α β : Type} [DecidableEq α]

@[simp] theorem alookup_nil (a : α) : alookup ([] : List (α × β)) a = none := rfl

theorem alookup_aset_self (l : List (α × β)) (a : α) (b : β) :
    alookup (aset l a b) a = some b := by
  induction l with
  | nil => simp [aset, alookup]
  | cons p t ih =>
    obtain ⟨k, v⟩ := p
    by_cases h : k = a
    · simp [aset, h, alookup]
    · simp [aset, h, alookup, ih]

theorem alookup_aset_ne (l : List (α × β)) (a a' : α) (b : β) (h : a' ≠ a) :
    alookup (aset l a b) a' = alookup l a' := by
  induction l with
  | nil => simp [aset, alookup, Ne.symm h]
  | cons p t ih =>
    obtain ⟨k, v⟩ := p
    by_cases hk : k = a
    · subst hk
      simp [aset, alookup, Ne.symm h]
    · simp only [aset, if_neg hk, alookup]
      by_cases hk' : k = a'
      · simp [hk']
      · simp [hk', ih]

theorem alookup_aerase_self (l : List (α × β)) (a : α) :
    alookup (aerase l a) a = none := by
  induction l with
  | nil => simp [aerase]
  | cons p t ih =>
    obtain ⟨k, v⟩ := p
    by_cases h : k = a
    · simp [aerase, h, ih]
    · simp [aerase, h, alookup, ih]

theorem alookup_aerase_ne (l : List (α × β)) (a a' : α) (h : a' ≠ a) :
    alookup (aerase l a) a' = alookup l a' := by
  induction l with
  | nil => simp [aerase]
  | cons p t ih =>
    obtain ⟨k, v⟩ := p
    by_cases hk : k = a
    · subst hk
      simp [aerase, alookup, Ne.symm h, ih]
    · simp only [aerase, if_neg hk, alookup]
      by_cases hk' : k = a'
      · simp [hk']
      · simp [hk', ih]

theorem countKey_aerase_self (l : List (α × β)) (a : α) :
    countKey (aerase l a) a = 0 := by
  induction l with
  | nil => simp [aerase, countKey]
  | cons p t ih =>
    obtain ⟨k, v⟩ := p
    by_cases h : k = a
    · simp [aerase, h, ih]
    · simp [aerase, h, countKey, ih]

theorem countKey_aset_of_absent (l : List (α × β)) (a : α) (b : β)
    (h : alookup l a = none) :
    countKey (aset l a b) a = countKey l a + 1 := by
  induction l with
  | nil => simp [aset, countKey]
  | cons p t ih =>
    obtain ⟨k, v⟩ := p
    by_cases hk : k = a
    · simp [alookup, hk] at h
    · simp only [alookup, if_neg hk] at h
      simp [aset, hk, countKey, ih h]

end AssocMapLemmas

namespace WebSocketService

/-! ## Basic facts about the operations -/

/-- A debounce callback for an event with no live timer-table entry does
nothing: cancellation is effective and firing is not repeatable. -/
theorem fireEventEndTimer_of_unarmed (s : WSState) (e t : Nat)
    (ev : Option EventRecord) (h : alookup s.eventEndTimers e = none) :
    fireEventEndTimer s e t ev = (s, []) := by
  simp [fireEventEndTimer, h]

theorem run_nil (s : WSState) : run s [] = (s, []) := rfl

theorem run_cons (s : WSState) (op : Op) (ops : List Op) :
    run s (op :: ops) =
      ((run (step s op).1 ops).1, (step s op).2 ++ (run (step s op).1 ops).2) :=
  rfl

end WebSocketService

open WebSocketService

/-! ## Claim C9: malformed inbound messages are ignored -/

/-- C9: a malformed inbound message (one that fails to parse) is logged and
ignored: the step leaves the whole registry state (clients map, rooms, timer
table) unchanged and produces no outputs — in particular the connection is
not closed. -/
theorem malformed_message_ignored (s : WSState) (cid raw : String) (now : Nat) :
    step s (Op.message cid (Inbound.malformed raw) now) = (s, []) := rfl

/-! ## Claim C2: a join before the timer fires cancels the cycle -/

/-- C2: while the end-of-stream timer for an event is armed, a successful
join for that event removes the timer-table entry, produces no outputs, and
afterwards the debounce callback for that event is a no-op at every time and
for every lookup result — zero end-of-stream signals fire for that emptying
cycle. -/
theorem join_cancels_pending_timer (s : WSState) (cid : String)
    (m : TimeSyncMessage) (now e fireAt : Nat)
    (he : m.eventId = e)
    (harmed : alookup s.eventEndTimers e = some fireAt)
    (hok : ¬(m.eventEndTime ≠ 0 ∧ now > m.eventEndTime)) :
    alookup (handleMessage s cid m now).1.eventEndTimers e = none ∧
    (handleMessage s cid m now).2 = [] ∧
    ∀ t ev, fireEventEndTimer (handleMessage s cid m now).1 e t ev =
      ((handleMessage s cid m now).1, []) := by
  have hstate : (handleMessage s cid m now).1.eventEndTimers =
      aerase s.eventEndTimers m.eventId := by
    simp [handleMessage, if_neg hok, clearEventEndTimer]
  have hnone : alookup (handleMessage s cid m now).1.eventEndTimers e = none := by
    rw [hstate, ← he]
    exact alookup_aerase_self _ _
  refine ⟨hnone, ?_, fun t ev => fireEventEndTimer_of_unarmed _ _ _ _ hnone⟩
  simp [handleMessage, if_neg hok]

/-- Witness for C2 at a concrete armed state and join. -/
theorem join_cancels_pending_timer_witness :
    alookup (handleMessage ⟨[], [], [(5, 40000)]⟩ "a" ⟨5, 9000, 9000, 100, 90000⟩
      9000).1.eventEndTimers 5 = none ∧
    (handleMessage ⟨[], [], [(5, 40000)]⟩ "a" ⟨5, 9000, 9000, 100, 90000⟩ 9000).2 = [] ∧
    ∀ t ev, fireEventEndTimer (handleMessage ⟨[], [], [(5, 40000)]⟩ "a"
        ⟨5, 9000, 9000, 100, 90000⟩ 9000).1 5 t ev =
      ((handleMessage ⟨[], [], [(5, 40000)]⟩ "a" ⟨5, 9000, 9000, 100, 90000⟩ 9000).1, []) :=
  join_cancels_pending_timer ⟨[], [], [(5, 40000)]⟩ "a" ⟨5, 9000, 9000, 100, 90000⟩
    9000 5 40000 rfl rfl (by decide)

/-! ## Claim C3: stale joins are rejected (corrected) -/

/-- A join message whose `eventEndTime` is the epoch itself (`0`), which is
in the past at any positive server time. -/
def staleEpochJoin : TimeSyncMessage := ⟨7, 1000, 1000, 0, 0⟩

/-- C3 counterexample: the claim fails for a join whose `eventEndTime` is
`0`.  At server time `1000` that end time is already past, yet the guard
`eventEndTime && currentTime > eventEndTime` treats `0` as falsy: the client
IS added to the clients map and to the room, no `event_ended` message or
close is produced, and `roomSize(7)` changes from `0` to `1`. -/
theorem stale_epoch_join_accepted :
    staleEpochJoin.eventEndTime < 1000 ∧
    (handleMessage initialState "a" staleEpochJoin 1000).2 = [] ∧
    alookup (handleMessage initialState "a" staleEpochJoin 1000).1.clients "a" =
      some ⟨true, 7, 0, 0⟩ ∧
    getEventClients initialState 7 = 0 ∧
    getEventClients (handleMessage initialState "a" staleEpochJoin 1000).1 7 = 1 := by
  decide

/-- C3 (amended): for every inbound join whose `eventEndTime` is nonzero and
strictly past the server clock at processing time, the connection is
rejected: the server sends an `event_ended` message and closes the
connection with code 1000, the whole state is unchanged (so the client is in
no map and no room), and every room size is unaffected. -/
theorem stale_join_rejected (s : WSState) (cid : String) (m : TimeSyncMessage)
    (now : Nat) (hnz : m.eventEndTime ≠ 0) (hpast : now > m.eventEndTime) :
    handleMessage s cid m now =
      (s, [Output.sent cid (OutMsg.eventEnded m.eventId none now),
           Output.closed cid 1000 "Event has already ended"]) ∧
    ∀ e, getEventClients (handleMessage s cid m now).1 e = getEventClients s e := by
  have h : handleMessage s cid m now =
      (s, [Output.sent cid (OutMsg.eventEnded m.eventId none now),
           Output.closed cid 1000 "Event has already ended"]) := by
    simp [handleMessage, hnz, hpast]
  exact ⟨h, fun e => by rw [h]⟩

/-- Witness for the amended C3 at a concrete stale join. -/
theorem stale_join_rejected_witness :
    handleMessage initialState "b" ⟨7, 0, 0, 0, 500⟩ 1000 =
      (initialState, [Output.sent "b" (OutMsg.eventEnded 7 none 1000),
           Output.closed "b" 1000 "Event has already ended"]) ∧
    ∀ e, getEventClients (handleMessage initialState "b" ⟨7, 0, 0, 0, 500⟩ 1000).1 e =
      getEventClients initialState e :=
  stale_join_rejected initialState "b" ⟨7, 0, 0, 0, 500⟩ 1000 (by decide) (by decide)

/-! ## Claim C7: the durable job contract -/

/-- C7: when a due detector firing succeeds in looking up the event and its
host, its output is exactly one delivery invocation carrying one durable job
tagged `event_end_notification` with payload `{eventId, eventName,
hostEmail, hostId}`, delay `30000` ms and retention `keepCompleted = 10`,
`keepFailed = 5`, together with the one in-app notification and the
telemetry clears. -/
theorem fired_job_contract (s : WSState) (e now fireAt : Nat)
    (ev : EventRecord) (h : EventHost)
    (ht : alookup s.eventEndTimers e = some fireAt) (hnow : now ≥ fireAt)
    (hh : ev.host = some h) :
    (fireEventEndTimer s e now (some ev)).2 =
      [Output.deliveryInvoked e,
       Output.enqueuedJob
         { name := "event_end_notification"
           data := { eventId := e, eventName := ev.event_name,
                     hostEmail := h.email, hostId := h.id }
           opts := { delay := 30000, removeOnComplete := 10, removeOnFail := 5 } },
       Output.createdNotification
         { user_id := h.id
           notification_type := "system"
           link := "/concepts/event/event-edit/" ++ toString e
           event_id := e
           title := "Event Ended"
           message := "Your event \"" ++ ev.event_name ++
             "\" stream has ended. All viewers have left the webinar." },
       Output.clearedLobbyLogs e, Output.clearedLogs e] := by
  simp [fireEventEndTimer, ht, hnow, sendEventEndNotification, hh,
    scheduleEventEndNotificationJob, TASK.EventEndNotification]

/-- Witness for C7 at a concrete armed timer and event record. -/
theorem fired_job_contract_witness :
    (fireEventEndTimer ⟨[], [], [(42, 30000)]⟩ 42 30000
        (some ⟨"Launch", some ⟨5, "host at example.com"⟩⟩)).2 =
      [Output.deliveryInvoked 42,
       Output.enqueuedJob
         { name := "event_end_notification"
           data := { eventId := 42, eventName := "Launch",
                     hostEmail := "host at example.com", hostId := 5 }
           opts := { delay := 30000, removeOnComplete := 10, removeOnFail := 5 } },
       Output.createdNotification
         { user_id := 5
           notification_type := "system"
           link := "/concepts/event/event-edit/" ++ toString 42
           event_id := 42
           title := "Event Ended"
           message := "Your event \"" ++ "Launch" ++
             "\" stream has ended. All viewers have left the webinar." },
       Output.clearedLobbyLogs 42, Output.clearedLogs 42] :=
  fired_job_contract ⟨[], [], [(42, 30000)]⟩ 42 30000 30000
    ⟨"Launch", some ⟨5, "host at example.com"⟩⟩ ⟨5, "host at example.com"⟩
    rfl (by decide) rfl

/-! ## Claim C8: failed lookup drops the notification -/

/-- The event/host lookup inside the fired callback failed: either the event
was not found or it has no host. -/
def lookupFailed (ev : Option EventRecord) : Prop :=
  ev = none ∨ ∃ r, ev = some r ∧ r.host = none

/-- C8: when a due detector firing cannot resolve the event or its host, the
delivery path produces nothing: no durable job is enqueued and no in-app
notification is created (only the delivery invocation and telemetry clears
appear), the timer-table entry is still removed, and the firing is not
retried — a later callback for the same event is a no-op. -/
theorem failed_lookup_drops_notification (s : WSState) (e now fireAt : Nat)
    (ev : Option EventRecord)
    (ht : alookup s.eventEndTimers e = some fireAt) (hnow : now ≥ fireAt)
    (hfail : lookupFailed ev) :
    sendEventEndNotification e ev = [] ∧
    (fireEventEndTimer s e now ev).2 =
      [Output.deliveryInvoked e, Output.clearedLobbyLogs e,
       Output.clearedLogs e] ∧
    alookup (fireEventEndTimer s e now ev).1.eventEndTimers e = none ∧
    ∀ t ev2, fireEventEndTimer (fireEventEndTimer s e now ev).1 e t ev2 =
      ((fireEventEndTimer s e now ev).1, []) := by
  have hsend : sendEventEndNotification e ev = [] := by
    rcases hfail with h1 | ⟨r, hr, hh⟩
    · simp [sendEventEndNotification, h1]
    · simp [sendEventEndNotification, hr, hh]
  have hstate : (fireEventEndTimer s e now ev).1 =
      { s with eventEndTimers := aerase s.eventEndTimers e } := by
    simp [fireEventEndTimer, ht, hnow]
  have hnone : alookup (fireEventEndTimer s e now ev).1.eventEndTimers e = none := by
    rw [hstate]
    exact alookup_aerase_self _ _
  refine ⟨hsend, ?_, hnone, fun t ev2 => fireEventEndTimer_of_unarmed _ _ _ _ hnone⟩
  simp [fireEventEndTimer, ht, hnow, hsend]

/-- Witness for C8 at a concrete armed timer and a hostless event record. -/
theorem failed_lookup_drops_notification_witness :
    sendEventEndNotification 3 (some ⟨"Ghost", none⟩) = [] ∧
    (fireEventEndTimer ⟨[], [], [(3, 31000)]⟩ 3 40000 (some ⟨"Ghost", none⟩)).2 =
      [Output.deliveryInvoked 3, Output.clearedLobbyLogs 3,
       Output.clearedLogs 3] ∧
    alookup (fireEventEndTimer ⟨[], [], [(3, 31000)]⟩ 3 40000
      (some ⟨"Ghost", none⟩)).1.eventEndTimers 3 = none ∧
    ∀ t ev2, fireEventEndTimer (fireEventEndTimer ⟨[], [], [(3, 31000)]⟩ 3 40000
        (some ⟨"Ghost", none⟩)).1 3 t ev2 =
      ((fireEventEndTimer ⟨[], [], [(3, 31000)]⟩ 3 40000 (some ⟨"Ghost", none⟩)).1, []) :=
  failed_lookup_drops_notification ⟨[], [], [(3, 31000)]⟩ 3 40000 31000
    (some ⟨"Ghost", none⟩) rfl (by decide) (Or.inr ⟨⟨"Ghost", none⟩, rfl, rfl⟩)

/-! ## Output-shape and preservation lemmas -/

namespace WebSocketService

theorem deliveryCount_nil (e : Nat) : deliveryCount [] e = 0 := rfl

theorem deliveryCount_append (a b : List Output) (e : Nat) :
    deliveryCount (a ++ b) e = deliveryCount a e + deliveryCount b e :=
  List.countP_append _ _ _

theorem deliveryCount_eq_zero (outs : List Output) (e : Nat)
    (h : ∀ o ∈ outs, ∀ e', o ≠ Output.deliveryInvoked e') :
    deliveryCount outs e = 0 := by
  rw [deliveryCount, List.countP_eq_zero]
  intro o ho
  cases o with
  | deliveryInvoked e' => exact absurd rfl (h _ ho e')
  | sent c m => simp
  | closed c k r => simp
  | enqueuedJob j => simp
  | createdNotification n => simp
  | clearedLobbyLogs e' => simp
  | clearedLogs e' => simp

/-- The delivery path only ever produces jobs and in-app notifications. -/
theorem sendEventEndNotification_outputs (e : Nat) (ev : Option EventRecord) :
    ∀ o ∈ sendEventEndNotification e ev,
      (∃ j, o = Output.enqueuedJob j) ∨ ∃ n, o = Output.createdNotification n := by
  intro o ho
  cases ev with
  | none => simp [sendEventEndNotification] at ho
  | some r =>
    cases hh : r.host with
    | none => simp [sendEventEndNotification, hh] at ho
    | some h =>
      simp only [sendEventEndNotification, hh, List.mem_cons,
        List.not_mem_nil, or_false] at ho
      rcases ho with rfl | rfl
      · exact Or.inl ⟨_, rfl⟩
      · exact Or.inr ⟨_, rfl⟩

/-- The kick path only ever sends terminal messages and closes sockets. -/
theorem kickOutParticipants_outputs (s : WSState) (e now : Nat) :
    ∀ o ∈ (kickOutParticipants s e now).2,
      (∃ c m, o = Output.sent c m) ∨ ∃ c k r, o = Output.closed c k r := by
  intro o ho
  cases hr : alookup s.eventRooms e with
  | none => simp [kickOutParticipants, hr] at ho
  | some room =>
    simp only [kickOutParticipants, hr, List.mem_flatMap] at ho
    obtain ⟨c, _, hc⟩ := ho
    cases hcl : alookup s.clients c with
    | none => simp [hcl] at hc
    | some client =>
      by_cases hop : client.wsOpen = true
      · simp only [hcl, hop, if_true, List.mem_cons, List.not_mem_nil,
          or_false] at hc
        rcases hc with rfl | rfl
        · exact Or.inl ⟨_, _, rfl⟩
        · exact Or.inr ⟨_, _, _, rfl⟩
      · simp [hcl, hop] at hc

/-- Broadcasting only ever sends messages. -/
theorem broadcastToEvent_outputs (s : WSState) (e : Nat) (m : OutMsg) :
    ∀ o ∈ broadcastToEvent s e m, ∃ c, o = Output.sent c m := by
  intro o ho
  cases hr : alookup s.eventRooms e with
  | none => simp [broadcastToEvent, hr] at ho
  | some room =>
    simp only [broadcastToEvent, hr, List.mem_filterMap] at ho
    obtain ⟨c, _, hc⟩ := ho
    cases hcl : alookup s.clients c with
    | none => simp [hcl] at hc
    | some client =>
      by_cases hop : client.wsOpen = true
      · simp only [hcl, hop, if_true, Option.some_inj] at hc
        exact ⟨c, hc.symm⟩
      · simp [hcl, hop] at hc

/-- Kicking a room never touches the timer table. -/
theorem kickOutParticipants_timers (s : WSState) (e now : Nat) :
    (kickOutParticipants s e now).1.eventEndTimers = s.eventEndTimers := by
  rw [kickOutParticipants]
  cases alookup s.eventRooms e with
  | none => rfl
  | some room => rfl

/-- Kicking a room only deletes room entries, so an absent room stays
absent. -/
theorem kickOutParticipants_rooms_absent (s : WSState) (e e' now : Nat)
    (h : alookup s.eventRooms e = none) :
    alookup (kickOutParticipants s e' now).1.eventRooms e = none := by
  cases hr : alookup s.eventRooms e' with
  | none => simpa [kickOutParticipants, hr] using h
  | some room =>
    simp only [kickOutParticipants, hr]
    by_cases he : e = e'
    · subst he
      exact alookup_aerase_self _ _
    · rw [alookup_aerase_ne _ _ _ he]
      exact h

/-- One scan iteration never touches the timer table. -/
theorem kickScanStep_timers (now : Nat) (acc : WSState × List Output)
    (entry : Nat × List String) :
    (kickScanStep now acc entry).1.eventEndTimers = acc.1.eventEndTimers := by
  by_cases h0 : entry.2 = []
  · simp [kickScanStep, h0]
  · cases hh : entry.2.head? with
    | none => simp [kickScanStep, h0, hh]
    | some firstId =>
      cases hcl : alookup acc.1.clients firstId with
      | none => simp [kickScanStep, h0, hh, hcl]
      | some fc =>
        by_cases h1 : fc.eventStartTime ≠ 0 ∧ fc.eventEndTime ≠ 0
        · by_cases h2 : now > fc.eventEndTime
          · simp [kickScanStep, h0, hh, hcl, h1.1, h1.2, h2,
              kickOutParticipants_timers]
          · simp [kickScanStep, h0, hh, hcl, h1.1, h1.2, h2]
        · simp [kickScanStep, h0, hh, hcl, h1]

/-- One scan iteration keeps an absent room absent. -/
theorem kickScanStep_rooms_absent (now : Nat) (acc : WSState × List Output)
    (entry : Nat × List String) (e : Nat)
    (h : alookup acc.1.eventRooms e = none) :
    alookup (kickScanStep now acc entry).1.eventRooms e = none := by
  by_cases h0 : entry.2 = []
  · simp [kickScanStep, h0, h]
  · cases hh : entry.2.head? with
    | none => simp [kickScanStep, h0, hh, h]
    | some firstId =>
      cases hcl : alookup acc.1.clients firstId with
      | none => simp [kickScanStep, h0, hh, hcl, h]
      | some fc =>
        by_cases h1 : fc.eventStartTime ≠ 0 ∧ fc.eventEndTime ≠ 0
        · by_cases h2 : now > fc.eventEndTime
          · simp only [kickScanStep, h0, hh, hcl, h1.1, h1.2, h2, if_neg,
              ite_true, ite_false, ne_eq, not_false_eq_true, if_pos, and_self,
              if_true]
            exact kickOutParticipants_rooms_absent _ _ _ _ h
          · simp [kickScanStep, h0, hh, hcl, h1.1, h1.2, h2, h]
        · simp [kickScanStep, h0, hh, hcl, h1, h]

/-- One scan iteration only appends kick outputs to the accumulator. -/
theorem kickScanStep_outputs (now : Nat) (acc : WSState × List Output)
    (entry : Nat × List String) :
    ∀ o ∈ (kickScanStep now acc entry).2,
      o ∈ acc.2 ∨ (∃ c m, o = Output.sent c m) ∨ ∃ c k r, o = Output.closed c k r := by
  intro o ho
  by_cases h0 : entry.2 = []
  · simp only [kickScanStep, h0, ite_true, if_pos] at ho
    exact Or.inl ho
  · cases hh : entry.2.head? with
    | none =>
      simp only [kickScanStep, h0, hh, ite_false, if_neg, not_false_eq_true] at ho
      exact Or.inl ho
    | some firstId =>
      cases hcl : alookup acc.1.clients firstId with
      | none =>
        simp only [kickScanStep, h0, hh, hcl, ite_false, if_neg,
          not_false_eq_true] at ho
        exact Or.inl ho
      | some fc =>
        by_cases h1 : fc.eventStartTime ≠ 0 ∧ fc.eventEndTime ≠ 0
        · by_cases h2 : now > fc.eventEndTime
          · simp only [kickScanStep, h0, hh, hcl, h1.1, h1.2, h2, ne_eq,
              not_false_eq_true, and_self, ite_true, ite_false, if_neg,
              if_pos, List.mem_append] at ho
            rcases ho with ho | ho
            · exact Or.inl ho
            · exact Or.inr (kickOutParticipants_outputs _ _ _ o ho)
          · simp only [kickScanStep, h0, hh, hcl, h1.1, h1.2, h2, ne_eq,
              not_false_eq_true, and_self, ite_true, ite_false, if_neg,
              if_pos] at ho
            exact Or.inl ho
        · simp only [kickScanStep, h0, hh, hcl, h1, ite_false, if_neg,
            not_false_eq_true] at ho
          exact Or.inl ho

/-- The expiry scan never touches the timer table. -/
theorem checkAndKick_timers (s : WSState) (now : Nat) :
    (checkAndKickExpiredEvents s now).1.eventEndTimers = s.eventEndTimers := by
  have hgen : ∀ (L : List (Nat × List String)) (acc : WSState × List Output),
      (L.foldl (kickScanStep now) acc).1.eventEndTimers = acc.1.eventEndTimers := by
    intro L
    induction L with
    | nil => intro acc; rfl
    | cons entry t ih =>
      intro acc
      rw [List.foldl_cons, ih, kickScanStep_timers]
  exact hgen s.eventRooms (s, [])

/-- The expiry scan keeps an absent room absent. -/
theorem checkAndKick_rooms_absent (s : WSState) (now e : Nat)
    (h : alookup s.eventRooms e = none) :
    alookup (checkAndKickExpiredEvents s now).1.eventRooms e = none := by
  have hgen : ∀ (L : List (Nat × List String)) (acc : WSState × List Output),
      alookup acc.1.eventRooms e = none →
      alookup (L.foldl (kickScanStep now) acc).1.eventRooms e = none := by
    intro L
    induction L with
    | nil => intro acc hacc; exact hacc
    | cons entry t ih =>
      intro acc hacc
      rw [List.foldl_cons]
      exact ih _ (kickScanStep_rooms_absent now acc entry e hacc)
  exact hgen s.eventRooms (s, []) h

/-- The expiry scan only emits sends and closes. -/
theorem checkAndKick_outputs (s : WSState) (now : Nat) :
    ∀ o ∈ (checkAndKickExpiredEvents s now).2,
      (∃ c m, o = Output.sent c m) ∨ ∃ c k r, o = Output.closed c k r := by
  have hgen : ∀ (L : List (Nat × List String)) (acc : WSState × List Output),
      (∀ o ∈ acc.2, (∃ c m, o = Output.sent c m) ∨ ∃ c k r, o = Output.closed c k r) →
      ∀ o ∈ (L.foldl (kickScanStep now) acc).2,
        (∃ c m, o = Output.sent c m) ∨ ∃ c k r, o = Output.closed c k r := by
    intro L
    induction L with
    | nil => intro acc hacc; exact hacc
    | cons entry t ih =>
      intro acc hacc
      rw [List.foldl_cons]
      refine ih _ ?_
      intro o ho
      rcases kickScanStep_outputs now acc entry o ho with h1 | h2
      · exact hacc o h1
      · exact h2
  exact hgen s.eventRooms (s, []) (by intro o ho; cases ho)

/-- A broadcaster tick never touches the timer table, keeps an absent room
absent, and only emits sends and closes. -/
theorem broadcastTick_facts (s : WSState) (now : Nat) :
    (broadcastTick s now).1.eventEndTimers = s.eventEndTimers ∧
    (∀ e, alookup s.eventRooms e = none →
      alookup (broadcastTick s now).1.eventRooms e = none) ∧
    ∀ o ∈ (broadcastTick s now).2,
      (∃ c m, o = Output.sent c m) ∨ ∃ c k r, o = Output.closed c k r := by
  refine ⟨checkAndKick_timers s now, fun e he => checkAndKick_rooms_absent s now e he, ?_⟩
  intro o ho
  simp only [broadcastTick, List.mem_append] at ho
  rcases ho with ho | ho
  · exact checkAndKick_outputs s now o ho
  · simp only [List.mem_flatMap] at ho
    obtain ⟨entry, _, hent⟩ := ho
    by_cases hlen : entry.2.length > 0
    · rw [if_pos hlen] at hent
      obtain ⟨c, hc⟩ := broadcastToEvent_outputs _ _ _ o hent
      exact Or.inl ⟨_, _, hc⟩
    · rw [if_neg hlen] at hent; cases hent

end WebSocketService

namespace WebSocketService

theorem deliveryCount_cons_other (e' e : Nat) (h : e' ≠ e) (outs : List Output) :
    deliveryCount (Output.deliveryInvoked e' :: outs) e = deliveryCount outs e := by
  simp [deliveryCount, List.countP_cons, h]

theorem deliveryCount_cons_self (e : Nat) (outs : List Output) :
    deliveryCount (Output.deliveryInvoked e :: outs) e = deliveryCount outs e + 1 := by
  simp [deliveryCount, List.countP_cons]

/-- Operations that are neither a `time_sync` message for event `e` nor a
debounce callback for `e`. -/
def NoJoinNoFire (e : Nat) : Op → Prop
  | Op.message _ (Inbound.wellFormed m) _ => m.eventId ≠ e
  | Op.fire e' _ _ => e' ≠ e
  | _ => True

/-- While event `e` has no room entry, any operation that is neither a join
for `e` nor a firing for `e` keeps the room absent, leaves the timer entry
for `e` untouched, and invokes zero deliveries for `e`. -/
theorem step_preserves_other_event (s : WSState) (op : Op) (e : Nat)
    (hop : NoJoinNoFire e op) (hroom : alookup s.eventRooms e = none) :
    alookup (step s op).1.eventRooms e = none ∧
    alookup (step s op).1.eventEndTimers e = alookup s.eventEndTimers e ∧
    deliveryCount (step s op).2 e = 0 := by
  cases op with
  | message cid inb now =>
    cases inb with
    | malformed raw => exact ⟨hroom, by trivial, by trivial⟩
    | wellFormed m =>
      have hme : m.eventId ≠ e := hop
      by_cases hrej : m.eventEndTime ≠ 0 ∧ now > m.eventEndTime
      · simp only [step, handleMessage, if_pos hrej]
        exact ⟨hroom, by trivial, by trivial⟩
      · simp only [step, handleMessage, if_neg hrej, clearEventEndTimer]
        refine ⟨?_, ?_, by trivial⟩
        · rw [alookup_aset_ne _ _ _ _ (Ne.symm hme)]
          exact hroom
        · rw [alookup_aerase_ne _ _ _ (Ne.symm hme)]
  | close cid now =>
    cases hcl : alookup s.clients cid with
    | none =>
      simp only [step, removeClient, hcl]
      exact ⟨hroom, by trivial, by trivial⟩
    | some client =>
      cases hrc : alookup s.eventRooms client.eventId with
      | none =>
        simp only [step, removeClient, hcl, hrc]
        exact ⟨hroom, by trivial, by trivial⟩
      | some room =>
        have hne : client.eventId ≠ e := by
          intro hEq
          rw [hEq, hroom] at hrc
          cases hrc
        by_cases hemp : removeMember room cid = []
        · simp only [step, removeClient, hcl, hrc, hemp, if_pos,
            scheduleEventEndNotification, clearEventEndTimer, ite_true]
          refine ⟨?_, ?_, by trivial⟩
          · rw [alookup_aerase_ne _ _ _ (Ne.symm hne)]
            exact hroom
          · rw [alookup_aset_ne _ _ _ _ (Ne.symm hne),
              alookup_aerase_ne _ _ _ (Ne.symm hne)]
        · simp only [step, removeClient, hcl, hrc, hemp, if_neg, ite_false,
            not_false_eq_true]
          refine ⟨?_, by trivial, by trivial⟩
          rw [alookup_aset_ne _ _ _ _ (Ne.symm hne)]
          exact hroom
  | fire e' now ev =>
    have hne : e' ≠ e := hop
    cases ht : alookup s.eventEndTimers e' with
    | none =>
      simp only [step, fireEventEndTimer, ht]
      exact ⟨hroom, by trivial, by trivial⟩
    | some fireAt =>
      by_cases hdue : now ≥ fireAt
      · simp only [step, fireEventEndTimer, ht, if_pos hdue, ge_iff_le]
        refine ⟨hroom, ?_, ?_⟩
        · rw [alookup_aerase_ne _ _ _ (Ne.symm hne)]
        · have hsend : deliveryCount (sendEventEndNotification e' ev) e = 0 := by
            apply deliveryCount_eq_zero
            intro o ho e''
            rcases sendEventEndNotification_outputs e' ev o ho with
              ⟨j, rfl⟩ | ⟨n, rfl⟩ <;> simp
          simp only [deliveryCount_cons_other e' e hne, deliveryCount_append,
            hsend]
          rfl
      · simp only [step, fireEventEndTimer, ht, if_neg hdue, ge_iff_le]
        exact ⟨hroom, by trivial, by trivial⟩
  | tick now =>
    obtain ⟨htm, hrm, hout⟩ := broadcastTick_facts s now
    refine ⟨hrm e hroom,
      by rw [show (step s (Op.tick now)).1 = (broadcastTick s now).1 from rfl, htm], ?_⟩
    apply deliveryCount_eq_zero
    intro o ho e'
    rcases hout o ho with ⟨c, m, rfl⟩ | ⟨c, k, r, rfl⟩ <;> simp

/-- Trace-level version of `step_preserves_other_event`. -/
theorem run_preserves_other_event (e : Nat) (ops : List Op) :
    ∀ s : WSState, (∀ op ∈ ops, NoJoinNoFire e op) →
    alookup s.eventRooms e = none →
    alookup (run s ops).1.eventRooms e = none ∧
    alookup (run s ops).1.eventEndTimers e = alookup s.eventEndTimers e ∧
    deliveryCount (run s ops).2 e = 0 := by
  induction ops with
  | nil => intro s _ hroom; exact ⟨hroom, rfl, rfl⟩
  | cons op t ih =>
    intro s hops hroom
    obtain ⟨h1, h2, h3⟩ := step_preserves_other_event s op e
      (hops op (List.mem_cons_self op t)) hroom
    obtain ⟨g1, g2, g3⟩ := ih (step s op).1
      (fun o ho => hops o (List.mem_cons_of_mem _ ho)) h1
    refine ⟨g1, ?_, ?_⟩
    · rw [show (run s (op :: t)).1 = (run (step s op).1 t).1 from rfl, g2, h2]
    · rw [show (run s (op :: t)).2 = (step s op).2 ++ (run (step s op).1 t).2
        from rfl, deliveryCount_append, h3, g3]

end WebSocketService

/-! ## Claim C1: exactly one firing per uninterrupted emptying -/

/-- C1: when the last member of an event room leaves, the room entry is
deleted and the debounce timer is armed for 30 s later; any following
operations containing no join and no firing for that event preserve the
armed entry and invoke zero deliveries; a due firing invokes the delivery
path exactly once and removes the timer-table entry; with the entry gone a
further firing is a no-op; and re-arming (a repeated empty transition)
always leaves exactly one live timer-table entry for the event. -/
theorem last_leave_fires_exactly_once (s : WSState) (e : Nat) (c : String)
    (cc : ClientConnection) (now : Nat)
    (hc : alookup s.clients c = some cc) (hce : cc.eventId = e)
    (hr : alookup s.eventRooms e = some [c]) :
    alookup (removeClient s c now).eventRooms e = none ∧
    alookup (removeClient s c now).eventEndTimers e = some (now + 30000) ∧
    (∀ ops, (∀ op ∈ ops, NoJoinNoFire e op) →
      alookup (run (removeClient s c now) ops).1.eventEndTimers e =
        some (now + 30000) ∧
      deliveryCount (run (removeClient s c now) ops).2 e = 0) ∧
    (∀ s2 t ev, alookup s2.eventEndTimers e = some (now + 30000) →
      t ≥ now + 30000 →
      deliveryCount (fireEventEndTimer s2 e t ev).2 e = 1 ∧
      alookup (fireEventEndTimer s2 e t ev).1.eventEndTimers e = none) ∧
    (∀ s2 t ev, alookup s2.eventEndTimers e = none →
      fireEventEndTimer s2 e t ev = (s2, [])) ∧
    (∀ s2 now2,
      countKey (scheduleEventEndNotification s2 e now2).eventEndTimers e = 1) := by
  have hrm : removeMember [c] c = [] := by simp [removeMember]
  have hs1 : removeClient s c now =
      { clients := aerase s.clients c,
        eventRooms := aerase s.eventRooms e,
        eventEndTimers := aset (aerase s.eventEndTimers e) e (now + 30000) } := by
    simp [removeClient, hc, hce, hr, hrm, scheduleEventEndNotification,
      clearEventEndTimer]
  have hroom1 : alookup (removeClient s c now).eventRooms e = none := by
    rw [hs1]
    exact alookup_aerase_self _ _
  have harm1 : alookup (removeClient s c now).eventEndTimers e =
      some (now + 30000) := by
    rw [hs1]
    exact alookup_aset_self _ _ _
  refine ⟨hroom1, harm1, ?_, ?_, ?_, ?_⟩
  · intro ops hops
    obtain ⟨g1, g2, g3⟩ :=
      run_preserves_other_event e ops (removeClient s c now) hops hroom1
    exact ⟨by rw [g2, harm1], g3⟩
  · intro s2 t ev harm hdue
    have hsend : deliveryCount (sendEventEndNotification e ev) e = 0 := by
      apply deliveryCount_eq_zero
      intro o ho e''
      rcases sendEventEndNotification_outputs e ev o ho with
        ⟨j, rfl⟩ | ⟨n, rfl⟩ <;> simp
    constructor
    · simp only [fireEventEndTimer, harm, ge_iff_le, hdue, if_true, ite_true]
      simp only [deliveryCount_cons_self, deliveryCount_append, hsend]
      rfl
    · simp only [fireEventEndTimer, harm, ge_iff_le, hdue, if_true, ite_true]
      exact alookup_aerase_self _ _
  · intro s2 t ev h
    exact fireEventEndTimer_of_unarmed _ _ _ _ h
  · intro s2 now2
    simp only [scheduleEventEndNotification, clearEventEndTimer]
    rw [countKey_aset_of_absent _ _ _ (alookup_aerase_self _ _),
      countKey_aerase_self]

/-- Concrete one-member room used by the C1 witness. -/
def lastLeaveState : WSState :=
  ⟨[("a", ⟨true, 1, 5, 900000⟩)], [(1, ["a"])], []⟩

/-- Witness for C1: the last leave at time 1000 arms the timer at 31000, two
non-join operations preserve it, and a due firing delivers exactly once. -/
theorem last_leave_fires_exactly_once_witness :
    alookup (removeClient lastLeaveState "a" 1000).eventEndTimers 1 =
      some 31000 ∧
    alookup (run (removeClient lastLeaveState "a" 1000)
      [Op.tick 5000, Op.close "b" 6000]).1.eventEndTimers 1 = some 31000 ∧
    deliveryCount (fireEventEndTimer (removeClient lastLeaveState "a" 1000) 1
      31000 (some ⟨"E", some ⟨2, "h"⟩⟩)).2 1 = 1 := by
  have h := last_leave_fires_exactly_once lastLeaveState 1 "a"
    ⟨true, 1, 5, 900000⟩ 1000 rfl rfl rfl
  refine ⟨h.2.1, ?_, ?_⟩
  · refine (h.2.2.1 [Op.tick 5000, Op.close "b" 6000] ?_).1
    intro op hop
    fin_cases hop <;> trivial
  · exact (h.2.2.2.1 (removeClient lastLeaveState "a" 1000) 31000
      (some ⟨"E", some ⟨2, "h"⟩⟩) h.2.1 (by decide)).1

/-! ## Room membership lemmas -/

theorem addMember_ne_nil (l : List String) (c : String) : addMember l c ≠ [] := by
  rw [addMember]
  by_cases h : c ∈ l
  · rw [if_pos h]
    intro hnil
    rw [hnil] at h
    cases h
  · rw [if_neg h]
    simp

theorem mem_addMember (x c : String) (l : List String) :
    x ∈ addMember l c ↔ x ∈ l ∨ x = c := by
  rw [addMember]
  by_cases h : c ∈ l
  · rw [if_pos h]
    constructor
    · exact fun hx => Or.inl hx
    · rintro (hx | rfl)
      · exact hx
      · exact h
  · rw [if_neg h]
    simp

theorem mem_removeMember (x c : String) (l : List String) :
    x ∈ removeMember l c ↔ x ∈ l ∧ x ≠ c := by
  induction l with
  | nil => simp [removeMember]
  | cons y t ih =>
    by_cases hy : y = c
    · subst hy
      rw [removeMember, if_pos rfl, ih]
      simp only [List.mem_cons]
      constructor
      · rintro ⟨hx, hne⟩
        exact ⟨Or.inr hx, hne⟩
      · rintro ⟨hx | hx, hne⟩
        · exact absurd hx hne
        · exact ⟨hx, hne⟩
    · rw [removeMember, if_neg hy]
      simp only [List.mem_cons, ih]
      constructor
      · rintro (rfl | ⟨hx, hne⟩)
        · exact ⟨Or.inl rfl, hy⟩
        · exact ⟨Or.inr hx, hne⟩
      · rintro ⟨rfl | hx, hne⟩
        · exact Or.inl rfl
        · exact Or.inr ⟨hx, hne⟩

theorem removeMember_of_not_mem (l : List String) (c : String) (h : c ∉ l) :
    removeMember l c = l := by
  induction l with
  | nil => rfl
  | cons y t ih =>
    have hy : y ≠ c := fun hEq => h (hEq ▸ List.mem_cons_self y t)
    rw [removeMember, if_neg hy, ih (fun hc => h (List.mem_cons_of_mem _ hc))]

namespace WebSocketService

/-! ## Claim C6: roomSize counts joined-not-left connections -/

/-- One operation is either a join message for event `e` or a leave. -/
def JoinOrLeaveOn (e : Nat) : Op → Prop
  | Op.message _ (Inbound.wellFormed m) _ => m.eventId = e
  | Op.close _ _ => True
  | _ => False

/-- Modelled on the claim's words, not on the service code: the set of
connections that have (successfully) joined the event and not yet left,
folded over a trace.  A rejected join contributes nothing; a leave removes
the connection. -/
def joinedNotLeftStep (eventId : Nat) (acc : List String) : Op → List String
  | Op.message c (Inbound.wellFormed m) now =>
    if m.eventId = eventId ∧ ¬(m.eventEndTime ≠ 0 ∧ now > m.eventEndTime) then
      (if c ∈ acc then acc else acc ++ [c])
    else acc
  | Op.close c _ => removeMember acc c
  | _ => acc

/-- The joined-and-not-yet-left connections after a trace. -/
def joinedNotLeft (eventId : Nat) : List Op → List String → List String
  | [], acc => acc
  | op :: ops, acc =>
    joinedNotLeft eventId ops (joinedNotLeftStep eventId acc op)

/-- Correspondence invariant for single-event traces: the room entry for `e`
holds exactly the joined-not-left set (absent when that set is empty), and
the clients map tracks exactly that set, all with event id `e`. -/
def RoomMatches (e : Nat) (s : WSState) (acc : List String) : Prop :=
  alookup s.eventRooms e = (if acc = [] then none else some acc) ∧
  (∀ c cc, alookup s.clients c = some cc → cc.eventId = e) ∧
  (∀ c, c ∈ acc ↔ (alookup s.clients c).isSome)

theorem roomMatches_step (e : Nat) (s : WSState) (acc : List String) (op : Op)
    (hop : JoinOrLeaveOn e op) (hinv : RoomMatches e s acc) :
    RoomMatches e (step s op).1 (joinedNotLeftStep e acc op) := by
  obtain ⟨hroom, hev, hmem⟩ := hinv
  cases op with
  | fire e' now ev => cases hop
  | tick now => cases hop
  | message cid inb now =>
    cases inb with
    | malformed raw => cases hop
    | wellFormed m =>
      have hme : m.eventId = e := hop
      by_cases hrej : m.eventEndTime ≠ 0 ∧ now > m.eventEndTime
      · have hstep : step s (Op.message cid (Inbound.wellFormed m) now) = (s,
          [Output.sent cid (OutMsg.eventEnded m.eventId none now),
           Output.closed cid 1000 "Event has already ended"]) := by
          simp [step, handleMessage, hrej]
        have hacc : joinedNotLeftStep e acc
            (Op.message cid (Inbound.wellFormed m) now) = acc := by
          simp [joinedNotLeftStep, hrej]
        rw [hstep, hacc]
        exact ⟨hroom, hev, hmem⟩
      · have holdRoom : (alookup s.eventRooms m.eventId).getD [] = acc := by
          rw [hme, hroom]
          by_cases hnil : acc = []
          · rw [if_pos hnil, hnil]; rfl
          · rw [if_neg hnil]; rfl
        have hacc : joinedNotLeftStep e acc
            (Op.message cid (Inbound.wellFormed m) now) = addMember acc cid := by
          simp [joinedNotLeftStep, hme, hrej, addMember]
        have hstep1 : (step s (Op.message cid (Inbound.wellFormed m) now)).1 =
            { clients := aset s.clients cid
                ⟨true, m.eventId, m.eventStartTime, m.eventEndTime⟩,
              eventRooms := aset s.eventRooms m.eventId
                (addMember ((alookup s.eventRooms m.eventId).getD []) cid),
              eventEndTimers :=
                aerase s.eventEndTimers m.eventId } := by
          simp [step, handleMessage, hrej, clearEventEndTimer, addMember]
        rw [hacc, hstep1, holdRoom]
        refine ⟨?_, ?_, ?_⟩
        · rw [if_neg (addMember_ne_nil acc cid), hme]
          exact alookup_aset_self _ _ _
        · intro c cc hcc
          by_cases hccid : c = cid
          · subst hccid
            rw [alookup_aset_self] at hcc
            cases hcc
            exact hme
          · rw [alookup_aset_ne _ _ _ _ hccid] at hcc
            exact hev c cc hcc
        · intro c
          by_cases hccid : c = cid
          · subst hccid
            simp [alookup_aset_self, mem_addMember]
          · rw [alookup_aset_ne _ _ _ _ hccid, mem_addMember]
            simp only [hccid, or_false]
            exact hmem c
  | close cid now =>
    have hacc : joinedNotLeftStep e acc (Op.close cid now) =
        removeMember acc cid := rfl
    rw [hacc]
    cases hcl : alookup s.clients cid with
    | none =>
      have hnm : cid ∉ acc := by
        rw [hmem cid, hcl]
        simp
      have hstep1 : (step s (Op.close cid now)).1 =
          { s with clients := aerase s.clients cid } := by
        simp [step, removeClient, hcl]
      rw [hstep1, removeMember_of_not_mem acc cid hnm]
      refine ⟨hroom, ?_, ?_⟩
      · intro c cc hcc
        by_cases hccid : c = cid
        · subst hccid
          rw [alookup_aerase_self] at hcc
          cases hcc
        · rw [alookup_aerase_ne _ _ _ hccid] at hcc
          exact hev c cc hcc
      · intro c
        by_cases hccid : c = cid
        · subst hccid
          rw [alookup_aerase_self]
          simp [hnm]
        · rw [alookup_aerase_ne _ _ _ hccid]
          exact hmem c
    | some client =>
      have hcm : cid ∈ acc := by
        rw [hmem cid, hcl]
        simp
      have haccnil : ¬acc = [] := by
        intro hnil
        rw [hnil] at hcm
        cases hcm
      have hcid : client.eventId = e := hev cid client hcl
      have hrc : alookup s.eventRooms client.eventId = some acc := by
        rw [hcid, hroom, if_neg haccnil]
      by_cases hemp : removeMember acc cid = []
      · have hstep1 : (step s (Op.close cid now)).1 =
            { clients := aerase s.clients cid,
              eventRooms := aerase s.eventRooms client.eventId,
              eventEndTimers := aset (aerase s.eventEndTimers client.eventId)
                client.eventId (now + 30000) } := by
          simp [step, removeClient, hcl, hrc, hemp,
            scheduleEventEndNotification, clearEventEndTimer]
        rw [hstep1, hemp]
        refine ⟨?_, ?_, ?_⟩
        · rw [if_pos rfl, hcid]
          exact alookup_aerase_self _ _
        · intro c cc hcc
          by_cases hccid : c = cid
          · subst hccid
            rw [alookup_aerase_self] at hcc
            cases hcc
          · rw [alookup_aerase_ne _ _ _ hccid] at hcc
            exact hev c cc hcc
        · intro c
          constructor
          · intro hfalse
            cases hfalse
          · intro hsome
            by_cases hccid : c = cid
            · subst hccid
              rw [alookup_aerase_self] at hsome
              cases hsome
            · rw [alookup_aerase_ne _ _ _ hccid] at hsome
              have hmemc : c ∈ acc := (hmem c).mpr hsome
              have : c ∈ removeMember acc cid :=
                (mem_removeMember c cid acc).mpr ⟨hmemc, hccid⟩
              rw [hemp] at this
              cases this
      · have hstep1 : (step s (Op.close cid now)).1 =
            { clients := aerase s.clients cid,
              eventRooms := aset s.eventRooms client.eventId
                (removeMember acc cid),
              eventEndTimers := s.eventEndTimers } := by
          simp [step, removeClient, hcl, hrc, hemp]
        rw [hstep1]
        refine ⟨?_, ?_, ?_⟩
        · rw [if_neg hemp, hcid]
          exact alookup_aset_self _ _ _
        · intro c cc hcc
          by_cases hccid : c = cid
          · subst hccid
            rw [alookup_aerase_self] at hcc
            cases hcc
          · rw [alookup_aerase_ne _ _ _ hccid] at hcc
            exact hev c cc hcc
        · intro c
          rw [mem_removeMember]
          by_cases hccid : c = cid
          · subst hccid
            rw [alookup_aerase_self]
            simp
          · rw [alookup_aerase_ne _ _ _ hccid]
            simp only [hccid, ne_eq, not_false_eq_true, and_true]
            exact hmem c

/-- Trace-level correspondence for single-event traces. -/
theorem run_roomMatches (e : Nat) (ops : List Op) :
    ∀ (s : WSState) (acc : List String), (∀ op ∈ ops, JoinOrLeaveOn e op) →
    RoomMatches e s acc →
    RoomMatches e (run s ops).1 (joinedNotLeft e ops acc) := by
  induction ops with
  | nil => intro s acc _ hinv; exact hinv
  | cons op t ih =>
    intro s acc hops hinv
    exact ih (step s op).1 (joinedNotLeftStep e acc op)
      (fun o ho => hops o (List.mem_cons_of_mem _ ho))
      (roomMatches_step e s acc op (hops op (List.mem_cons_self op t)) hinv)

end WebSocketService

open WebSocketService

/-- C6: over any trace of join messages for one event and leaves, started
from the initial state, `getEventClients` (roomSize) equals the number of
connections that have successfully joined that event and not yet left — a
natural number, hence never negative — and it returns `0` whenever no room
entry exists. -/
theorem roomSize_counts_joined_not_left (e : Nat) (ops : List Op)
    (hops : ∀ op ∈ ops, JoinOrLeaveOn e op) :
    getEventClients (run initialState ops).1 e =
      (joinedNotLeft e ops []).length ∧
    ∀ s' : WSState, alookup s'.eventRooms e = none → getEventClients s' e = 0 := by
  have hinit : RoomMatches e initialState [] := by
    refine ⟨rfl, ?_, ?_⟩
    · intro c cc hcc
      cases hcc
    · intro c
      constructor
      · intro h
        cases h
      · intro h
        cases h
  obtain ⟨h1, _, _⟩ := run_roomMatches e ops initialState [] hops hinit
  constructor
  · by_cases hnil : joinedNotLeft e ops [] = []
    · rw [if_pos hnil] at h1
      rw [getEventClients, h1, hnil]
      rfl
    · rw [if_neg hnil] at h1
      rw [getEventClients, h1]
  · intro s' h'
    rw [getEventClients, h']

/-- Witness for C6: two joins and one leave on event 1 yield room size 1,
matching the one joined-not-left connection. -/
theorem roomSize_counts_joined_not_left_witness :
    getEventClients (run initialState
      [Op.message "a" (Inbound.wellFormed ⟨1, 50, 50, 10, 99000⟩) 50,
       Op.message "b" (Inbound.wellFormed ⟨1, 60, 60, 10, 99000⟩) 60,
       Op.close "a" 70]).1 1 =
      (joinedNotLeft 1
        [Op.message "a" (Inbound.wellFormed ⟨1, 50, 50, 10, 99000⟩) 50,
         Op.message "b" (Inbound.wellFormed ⟨1, 60, 60, 10, 99000⟩) 60,
         Op.close "a" 70] []).length ∧
    ∀ s' : WSState, alookup s'.eventRooms 1 = none → getEventClients s' 1 = 0 :=
  roomSize_counts_joined_not_left 1
    [Op.message "a" (Inbound.wellFormed ⟨1, 50, 50, 10, 99000⟩) 50,
     Op.message "b" (Inbound.wellFormed ⟨1, 60, 60, 10, 99000⟩) 60,
     Op.close "a" 70]
    (by intro op hop; fin_cases hop <;> trivial)

/-! ## Key-uniqueness lemmas -/

section KeyLemmas

variable {α β : Type} [DecidableEq α]

theorem mem_keys_aerase (l : List (α × β)) (a x : α)
    (h : x ∈ (aerase l a).map Prod.fst) : x ∈ l.map Prod.fst := by
  induction l with
  | nil => simpa [aerase] using h
  | cons p t ih =>
    obtain ⟨k, v⟩ := p
    by_cases hk : k = a
    · rw [aerase, if_pos hk] at h
      exact List.mem_cons_of_mem _ (ih h)
    · rw [aerase, if_neg hk] at h
      rcases List.mem_cons.mp h with rfl | h2
      · exact List.mem_cons_self _ _
      · exact List.mem_cons_of_mem _ (ih h2)

theorem keysNodup_aerase (l : List (α × β)) (a : α) (h : keysNodup l) :
    keysNodup (aerase l a) := by
  induction l with
  | nil => exact h
  | cons p t ih =>
    obtain ⟨k, v⟩ := p
    rw [keysNodup, List.map_cons, List.nodup_cons] at h
    obtain ⟨hk, ht⟩ := h
    by_cases hka : k = a
    · rw [keysNodup, aerase, if_pos hka]
      exact ih ht
    · rw [keysNodup, aerase, if_neg hka, List.map_cons, List.nodup_cons]
      exact ⟨fun hmem => hk (mem_keys_aerase t a k hmem), ih ht⟩

theorem mem_keys_aset (l : List (α × β)) (a x : α) (b : β)
    (h : x ∈ (aset l a b).map Prod.fst) : x ∈ l.map Prod.fst ∨ x = a := by
  induction l with
  | nil =>
    rw [aset] at h
    rcases List.mem_cons.mp h with rfl | h2
    · exact Or.inr rfl
    · cases h2
  | cons p t ih =>
    obtain ⟨k, v⟩ := p
    by_cases hk : k = a
    · rw [aset, if_pos hk] at h
      rcases List.mem_cons.mp h with rfl | h2
      · exact Or.inr rfl
      · exact Or.inl (List.mem_cons_of_mem _ h2)
    · rw [aset, if_neg hk] at h
      rcases List.mem_cons.mp h with rfl | h2
      · exact Or.inl (List.mem_cons_self _ _)
      · rcases ih h2 with h3 | h3
        · exact Or.inl (List.mem_cons_of_mem _ h3)
        · exact Or.inr h3

theorem keysNodup_aset (l : List (α × β)) (a : α) (b : β) (h : keysNodup l) :
    keysNodup (aset l a b) := by
  induction l with
  | nil => simp [keysNodup, aset]
  | cons p t ih =>
    obtain ⟨k, v⟩ := p
    rw [keysNodup, List.map_cons, List.nodup_cons] at h
    obtain ⟨hk, ht⟩ := h
    by_cases hka : k = a
    · subst hka
      rw [keysNodup, aset, if_pos rfl, List.map_cons, List.nodup_cons]
      exact ⟨hk, ht⟩
    · rw [keysNodup, aset, if_neg hka, List.map_cons, List.nodup_cons]
      refine ⟨fun hmem => ?_, ih ht⟩
      rcases mem_keys_aset t a k b hmem with h3 | h3
      · exact hk h3
      · exact hka h3

end KeyLemmas

namespace WebSocketService

/-! ## The global reachability invariant -/

/-- Closing a room's sockets preserves every tracked connection and its
recorded event id (only the open flag can change). -/
theorem closeRoomClients_lookup (room : List String) :
    ∀ (cl : List (String × ClientConnection)) (c : String)
      (cc : ClientConnection), alookup cl c = some cc →
    ∃ cc', alookup (closeRoomClients cl room) c = some cc' ∧
      cc'.eventId = cc.eventId := by
  induction room with
  | nil => exact fun cl c cc h => ⟨cc, h, rfl⟩
  | cons x t ih =>
    intro cl c cc h
    cases hx : alookup cl x with
    | none =>
      have heq : closeRoomClients cl (x :: t) = closeRoomClients cl t := by
        simp [closeRoomClients, hx]
      rw [heq]
      exact ih cl c cc h
    | some client =>
      by_cases hop : client.wsOpen = true
      · have heq : closeRoomClients cl (x :: t) =
            closeRoomClients (aset cl x { client with wsOpen := false }) t := by
          simp [closeRoomClients, hx, hop]
        rw [heq]
        by_cases hxc : c = x
        · subst hxc
          rw [h] at hx
          cases hx
          obtain ⟨cc', h1, h2⟩ := ih _ c { cc with wsOpen := false }
            (alookup_aset_self _ _ _)
          exact ⟨cc', h1, h2⟩
        · exact ih _ c cc (by rw [alookup_aset_ne _ _ _ _ hxc]; exact h)
      · have heq : closeRoomClients cl (x :: t) = closeRoomClients cl t := by
          simp [closeRoomClients, hx, hop]
        rw [heq]
        exact ih cl c cc h

/-- The state invariant of the service under the first-message protocol:
room keys are unique, every room member is tracked with that room's event
id, and an event with a live room entry has no pending end timer (spec
invariants (a) and (c)). -/
def SafeInv (s : WSState) : Prop :=
  keysNodup s.eventRooms ∧
  (∀ e l, alookup s.eventRooms e = some l →
    ∀ c ∈ l, ∃ cc, alookup s.clients c = some cc ∧ cc.eventId = e) ∧
  (∀ e l, alookup s.eventRooms e = some l → alookup s.eventEndTimers e = none)

theorem kickOutParticipants_safeInv (s : WSState) (e' now : Nat)
    (h : SafeInv s) : SafeInv (kickOutParticipants s e' now).1 := by
  obtain ⟨hnd, htr, hti⟩ := h
  cases hr : alookup s.eventRooms e' with
  | none =>
    have heq : (kickOutParticipants s e' now).1 = s := by
      simp [kickOutParticipants, hr]
    rw [heq]
    exact ⟨hnd, htr, hti⟩
  | some room =>
    simp only [kickOutParticipants, hr]
    refine ⟨keysNodup_aerase _ _ hnd, ?_, ?_⟩
    · intro e l hl c hc
      by_cases he : e = e'
      · subst he
        rw [alookup_aerase_self] at hl
        cases hl
      · rw [alookup_aerase_ne _ _ _ he] at hl
        obtain ⟨cc, hcc, hccid⟩ := htr e l hl c hc
        obtain ⟨cc', hcc', hid⟩ := closeRoomClients_lookup room s.clients c cc hcc
        exact ⟨cc', hcc', by rw [hid, hccid]⟩
    · intro e l hl
      by_cases he : e = e'
      · subst he
        rw [alookup_aerase_self] at hl
        cases hl
      · rw [alookup_aerase_ne _ _ _ he] at hl
        exact hti e l hl

theorem kickScanStep_safeInv (now : Nat) (acc : WSState × List Output)
    (entry : Nat × List String) (h : SafeInv acc.1) :
    SafeInv (kickScanStep now acc entry).1 := by
  by_cases h0 : entry.2 = []
  · simpa [kickScanStep, h0] using h
  · cases hh : entry.2.head? with
    | none => simpa [kickScanStep, h0, hh] using h
    | some firstId =>
      cases hcl : alookup acc.1.clients firstId with
      | none => simpa [kickScanStep, h0, hh, hcl] using h
      | some fc =>
        by_cases h1 : fc.eventStartTime ≠ 0 ∧ fc.eventEndTime ≠ 0
        · by_cases h2 : now > fc.eventEndTime
          · have heq : (kickScanStep now acc entry).1 =
                (kickOutParticipants acc.1 entry.1 now).1 := by
              simp [kickScanStep, h0, hh, hcl, h1.1, h1.2, h2]
            rw [heq]
            exact kickOutParticipants_safeInv _ _ _ h
          · simpa [kickScanStep, h0, hh, hcl, h1.1, h1.2, h2] using h
        · simpa [kickScanStep, h0, hh, hcl, h1] using h

theorem broadcastTick_safeInv (s : WSState) (now : Nat) (h : SafeInv s) :
    SafeInv (broadcastTick s now).1 := by
  have hgen : ∀ (L : List (Nat × List String)) (acc : WSState × List Output),
      SafeInv acc.1 → SafeInv (L.foldl (kickScanStep now) acc).1 := by
    intro L
    induction L with
    | nil => intro acc hacc; exact hacc
    | cons entry t ih =>
      intro acc hacc
      rw [List.foldl_cons]
      exact ih _ (kickScanStep_safeInv now acc entry hacc)
  exact hgen s.eventRooms (s, []) h

theorem step_safeInv (s : WSState) (op : Op) (hfresh : OpFresh s op)
    (h : SafeInv s) : SafeInv (step s op).1 := by
  obtain ⟨hnd, htr, hti⟩ := h
  cases op with
  | tick now => exact broadcastTick_safeInv s now ⟨hnd, htr, hti⟩
  | fire e' now ev =>
    cases ht : alookup s.eventEndTimers e' with
    | none =>
      have heq : (step s (Op.fire e' now ev)).1 = s := by
        simp [step, fireEventEndTimer, ht]
      rw [heq]
      exact ⟨hnd, htr, hti⟩
    | some fireAt =>
      by_cases hdue : now ≥ fireAt
      · have heq : (step s (Op.fire e' now ev)).1 =
            { s with eventEndTimers := aerase s.eventEndTimers e' } := by
          simp [step, fireEventEndTimer, ht, hdue]
        rw [heq]
        refine ⟨hnd, htr, ?_⟩
        intro e l hl
        by_cases he : e = e'
        · subst he
          exact alookup_aerase_self _ _
        · rw [alookup_aerase_ne _ _ _ he]
          exact hti e l hl
      · have heq : (step s (Op.fire e' now ev)).1 = s := by
          simp [step, fireEventEndTimer, ht, hdue]
        rw [heq]
        exact ⟨hnd, htr, hti⟩
  | message cid inb now =>
    cases inb with
    | malformed raw => exact ⟨hnd, htr, hti⟩
    | wellFormed m =>
      have hf : alookup s.clients cid = none := hfresh
      by_cases hrej : m.eventEndTime ≠ 0 ∧ now > m.eventEndTime
      · have heq : (step s (Op.message cid (Inbound.wellFormed m) now)).1 = s := by
          simp [step, handleMessage, hrej]
        rw [heq]
        exact ⟨hnd, htr, hti⟩
      · have heq : (step s (Op.message cid (Inbound.wellFormed m) now)).1 =
            { clients := aset s.clients cid
                ⟨true, m.eventId, m.eventStartTime, m.eventEndTime⟩,
              eventRooms := aset s.eventRooms m.eventId
                (addMember ((alookup s.eventRooms m.eventId).getD []) cid),
              eventEndTimers := aerase s.eventEndTimers m.eventId } := by
          simp [step, handleMessage, hrej, clearEventEndTimer, addMember]
        rw [heq]
        refine ⟨keysNodup_aset _ _ _ hnd, ?_, ?_⟩
        · intro e l hl c hc
          by_cases he : e = m.eventId
          · subst he
            rw [alookup_aset_self] at hl
            cases hl
            rcases (mem_addMember c cid _).mp hc with hcr | rfl
            · cases hor : alookup s.eventRooms m.eventId with
              | none =>
                rw [hor] at hcr
                cases hcr
              | some r =>
                rw [hor] at hcr
                obtain ⟨cc, hcc, hccid⟩ := htr m.eventId r hor c hcr
                have hne : c ≠ cid := by
                  intro hEq
                  rw [hEq, hf] at hcc
                  cases hcc
                rw [← alookup_aset_ne s.clients cid c
                  (⟨true, m.eventId, m.eventStartTime, m.eventEndTime⟩ :
                    ClientConnection) hne] at hcc
                exact ⟨cc, hcc, hccid⟩
            · exact ⟨_, alookup_aset_self _ _ _, rfl⟩
          · rw [alookup_aset_ne _ _ _ _ he] at hl
            obtain ⟨cc, hcc, hccid⟩ := htr e l hl c hc
            have hne : c ≠ cid := by
              intro hEq
              rw [hEq, hf] at hcc
              cases hcc
            rw [← alookup_aset_ne s.clients cid c
              (⟨true, m.eventId, m.eventStartTime, m.eventEndTime⟩ :
                ClientConnection) hne] at hcc
            exact ⟨cc, hcc, hccid⟩
        · intro e l hl
          by_cases he : e = m.eventId
          · subst he
            exact alookup_aerase_self _ _
          · rw [alookup_aset_ne _ _ _ _ he] at hl
            rw [alookup_aerase_ne _ _ _ he]
            exact hti e l hl
  | close cid now =>
    cases hcl : alookup s.clients cid with
    | none =>
      have heq : (step s (Op.close cid now)).1 =
          { s with clients := aerase s.clients cid } := by
        simp [step, removeClient, hcl]
      rw [heq]
      refine ⟨hnd, ?_, hti⟩
      intro e l hl c hc
      obtain ⟨cc, hcc, hccid⟩ := htr e l hl c hc
      have hne : c ≠ cid := by
        intro hEq
        rw [hEq, hcl] at hcc
        cases hcc
      rw [← alookup_aerase_ne s.clients cid c hne] at hcc
      exact ⟨cc, hcc, hccid⟩
    | some client =>
      cases hrc : alookup s.eventRooms client.eventId with
      | none =>
        have heq : (step s (Op.close cid now)).1 =
            { s with clients := aerase s.clients cid } := by
          simp [step, removeClient, hcl, hrc]
        rw [heq]
        refine ⟨hnd, ?_, hti⟩
        intro e l hl c hc
        have hl' : alookup s.eventRooms e = some l := hl
        obtain ⟨cc, hcc, hccid⟩ := htr e l hl' c hc
        have hne : c ≠ cid := by
          intro hEq
          rw [hEq, hcl] at hcc
          cases hcc
          rw [hccid, hl'] at hrc
          cases hrc
        rw [← alookup_aerase_ne s.clients cid c hne] at hcc
        exact ⟨cc, hcc, hccid⟩
      | some room =>
        by_cases hemp : removeMember room cid = []
        · have heq : (step s (Op.close cid now)).1 =
              { clients := aerase s.clients cid,
                eventRooms := aerase s.eventRooms client.eventId,
                eventEndTimers := aset (aerase s.eventEndTimers client.eventId)
                  client.eventId (now + 30000) } := by
            simp [step, removeClient, hcl, hrc, hemp,
              scheduleEventEndNotification, clearEventEndTimer]
          rw [heq]
          refine ⟨keysNodup_aerase _ _ hnd, ?_, ?_⟩
          · intro e l hl c hc
            by_cases he : e = client.eventId
            · subst he
              rw [alookup_aerase_self] at hl
              cases hl
            · rw [alookup_aerase_ne _ _ _ he] at hl
              obtain ⟨cc, hcc, hccid⟩ := htr e l hl c hc
              have hne : c ≠ cid := by
                intro hEq
                rw [hEq, hcl] at hcc
                cases hcc
                exact he hccid.symm
              rw [← alookup_aerase_ne s.clients cid c hne] at hcc
              exact ⟨cc, hcc, hccid⟩
          · intro e l hl
            by_cases he : e = client.eventId
            · subst he
              rw [alookup_aerase_self] at hl
              cases hl
            · rw [alookup_aerase_ne _ _ _ he] at hl
              rw [alookup_aset_ne _ _ _ _ he, alookup_aerase_ne _ _ _ he]
              exact hti e l hl
        · have heq : (step s (Op.close cid now)).1 =
              { clients := aerase s.clients cid,
                eventRooms := aset s.eventRooms client.eventId
                  (removeMember room cid),
                eventEndTimers := s.eventEndTimers } := by
            simp [step, removeClient, hcl, hrc, hemp]
          rw [heq]
          refine ⟨keysNodup_aset _ _ _ hnd, ?_, ?_⟩
          · intro e l hl c hc
            by_cases he : e = client.eventId
            · subst he
              rw [alookup_aset_self] at hl
              cases hl
              obtain ⟨hcr, hne⟩ := (mem_removeMember c cid room).mp hc
              obtain ⟨cc, hcc, hccid⟩ := htr client.eventId room hrc c hcr
              rw [← alookup_aerase_ne s.clients cid c hne] at hcc
              exact ⟨cc, hcc, hccid⟩
            · rw [alookup_aset_ne _ _ _ _ he] at hl
              obtain ⟨cc, hcc, hccid⟩ := htr e l hl c hc
              have hne : c ≠ cid := by
                intro hEq
                rw [hEq, hcl] at hcc
                cases hcc
                exact he hccid.symm
              rw [← alookup_aerase_ne s.clients cid c hne] at hcc
              exact ⟨cc, hcc, hccid⟩
          · intro e l hl
            by_cases he : e = client.eventId
            · subst he
              exact hti client.eventId room hrc
            · rw [alookup_aset_ne _ _ _ _ he] at hl
              exact hti e l hl

/-- Every reachable state satisfies the invariant. -/
theorem reach_safeInv (s : WSState) (h : Reach s) : SafeInv s := by
  induction h with
  | init =>
    refine ⟨List.nodup_nil, ?_, ?_⟩
    · intro e l hl
      cases hl
    · intro e l hl
      cases hl
  | next s op hr hfresh ih => exact step_safeInv s op hfresh ih

end WebSocketService

/-! ## Claim C5: room membership (corrected) -/

/-- Protocol-respecting trace for the C5 counterexample: one client joins
event 1 (end time 10000), then a broadcaster tick at 20000 force-ends the
room. -/
def forceEndTrace : List Op :=
  [Op.message "a" (Inbound.wellFormed ⟨1, 100, 100, 1, 10000⟩) 100,
   Op.tick 20000]

/-- C5 counterexample: after the force-end tick, connection "a" is still
tracked in the clients map (its close event has not yet been processed) but
there is no room at all, so it does not appear in the member set of its
recorded eventId's room — "belongs to exactly one room" fails after a
broadcaster force-end. -/
theorem kicked_client_tracked_without_room :
    alookup (run initialState forceEndTrace).1.clients "a" =
      some ⟨false, 1, 1, 10000⟩ ∧
    (run initialState forceEndTrace).1.eventRooms = [] := by decide

/-- C5 (amended): in every reachable state under the first-message protocol,
a connection belongs to at most one room: every clientId appearing in a
room's member set is tracked in the clients map with that room's eventId
recorded, and it appears in no room of any other eventId.  ("Exactly one"
fails: the force-end path leaves kicked connections tracked with no room
until their close events are processed — see the counterexample.) -/
theorem connection_in_at_most_one_room (s : WSState) (h : Reach s) :
    (∀ e l c, alookup s.eventRooms e = some l → c ∈ l →
      ∃ cc, alookup s.clients c = some cc ∧ cc.eventId = e) ∧
    (∀ c e1 l1 e2 l2, alookup s.eventRooms e1 = some l1 →
      alookup s.eventRooms e2 = some l2 → c ∈ l1 → c ∈ l2 → e1 = e2) := by
  obtain ⟨hnd, htr, hti⟩ := reach_safeInv s h
  refine ⟨fun e l c hl hc => htr e l hl c hc, ?_⟩
  intro c e1 l1 e2 l2 h1 h2 hc1 hc2
  obtain ⟨cc1, hcc1, hid1⟩ := htr e1 l1 h1 c hc1
  obtain ⟨cc2, hcc2, hid2⟩ := htr e2 l2 h2 c hc2
  rw [hcc1] at hcc2
  cases hcc2
  rw [← hid1, ← hid2]

/-- The state after a single fresh join of "a" to event 1, and its
reachability. -/
def joinedOnceState : WSState :=
  (step initialState
    (Op.message "a" (Inbound.wellFormed ⟨1, 100, 100, 1, 10000⟩) 100)).1

theorem joinedOnceState_reach : Reach joinedOnceState :=
  Reach.next initialState
    (Op.message "a" (Inbound.wellFormed ⟨1, 100, 100, 1, 10000⟩) 100)
    Reach.init rfl

/-- Witness for the amended C5 at the concrete one-join state. -/
theorem connection_in_at_most_one_room_witness :
    ∃ cc, alookup joinedOnceState.clients "a" = some cc ∧ cc.eventId = 1 :=
  (connection_in_at_most_one_room joinedOnceState joinedOnceState_reach).1
    1 ["a"] "a" (by decide) (by decide)

/-! ## Claim C10: force-end never arms the detector -/

/-- C10: a room terminated by the broadcaster force-end path never arms the
end-of-stream detector and never produces a host notification for that
termination.  Kicking leaves the timer table untouched — and in a reachable
state a live room has no timer entry, so afterwards event `e` is both
roomless and timerless; the kick outputs are only sends and closes (no
delivery, job or in-app record); any following sequence of close events
(the kicked sockets' close handlers) keeps `e` roomless and timerless with
zero deliveries, and a debounce callback for `e` after them is a no-op. -/
theorem force_end_never_arms_detector (s : WSState) (e now : Nat)
    (l : List String) (h : Reach s) (hr : alookup s.eventRooms e = some l) :
    (kickOutParticipants s e now).1.eventEndTimers = s.eventEndTimers ∧
    alookup (kickOutParticipants s e now).1.eventEndTimers e = none ∧
    alookup (kickOutParticipants s e now).1.eventRooms e = none ∧
    (∀ o ∈ (kickOutParticipants s e now).2,
      (∃ c m, o = Output.sent c m) ∨ ∃ c k r, o = Output.closed c k r) ∧
    ∀ ops, (∀ op ∈ ops, ∃ c t, op = Op.close c t) →
      alookup (run (kickOutParticipants s e now).1 ops).1.eventEndTimers e =
        none ∧
      alookup (run (kickOutParticipants s e now).1 ops).1.eventRooms e = none ∧
      deliveryCount (run (kickOutParticipants s e now).1 ops).2 e = 0 ∧
      ∀ t ev,
        fireEventEndTimer (run (kickOutParticipants s e now).1 ops).1 e t ev =
          ((run (kickOutParticipants s e now).1 ops).1, []) := by
  obtain ⟨hnd, htr, hti⟩ := reach_safeInv s h
  have htimers := kickOutParticipants_timers s e now
  have htnone : alookup (kickOutParticipants s e now).1.eventEndTimers e =
      none := by
    rw [htimers]
    exact hti e l hr
  have hrooms : alookup (kickOutParticipants s e now).1.eventRooms e = none := by
    simp only [kickOutParticipants, hr]
    exact alookup_aerase_self _ _
  refine ⟨htimers, htnone, hrooms, kickOutParticipants_outputs s e now, ?_⟩
  intro ops hops
  have hops' : ∀ op ∈ ops, NoJoinNoFire e op := by
    intro op hop
    obtain ⟨c, t, rfl⟩ := hops op hop
    trivial
  obtain ⟨g1, g2, g3⟩ :=
    run_preserves_other_event e ops (kickOutParticipants s e now).1 hops' hrooms
  have gt : alookup (run (kickOutParticipants s e now).1 ops).1.eventEndTimers
      e = none := by
    rw [g2, htnone]
  exact ⟨gt, g1, g3, fun t ev => fireEventEndTimer_of_unarmed _ _ _ _ gt⟩

/-- Witness for C10: force-end of the one-member room of event 1, followed
by the kicked client's close event. -/
theorem force_end_never_arms_detector_witness :
    alookup (run (kickOutParticipants joinedOnceState 1 20000).1
      [Op.close "a" 21000]).1.eventEndTimers 1 = none ∧
    deliveryCount (run (kickOutParticipants joinedOnceState 1 20000).1
      [Op.close "a" 21000]).2 1 = 0 := by
  have h := force_end_never_arms_detector joinedOnceState 1 20000 ["a"]
    joinedOnceState_reach (by decide)
  obtain ⟨g1, g2, g3, g4⟩ := h.2.2.2.2 [Op.close "a" 21000]
    (by intro op hop; fin_cases hop; exact ⟨"a", 21000, rfl⟩)
  exact ⟨g1, g3⟩

/-! ## Claim C4: expired rooms are kicked on the next tick (corrected) -/

section SplitLemmas

variable {α β : Type} [DecidableEq α]

theorem alookup_split (l : List (α × β)) (a : α) (b : β)
    (h : alookup l a = some b) :
    ∃ L1 L2, l = L1 ++ (a, b) :: L2 ∧ ∀ p ∈ L1, p.1 ≠ a := by
  induction l with
  | nil => cases h
  | cons p t ih =>
    obtain ⟨k, v⟩ := p
    by_cases hk : k = a
    · subst hk
      rw [alookup, if_pos rfl] at h
      cases h
      exact ⟨[], t, rfl, by intro p hp; cases hp⟩
    · rw [alookup, if_neg hk] at h
      obtain ⟨L1, L2, rfl, hkeys⟩ := ih h
      refine ⟨(k, v) :: L1, L2, rfl, ?_⟩
      intro p hp
      rcases List.mem_cons.mp hp with rfl | hp2
      · exact hk
      · exact hkeys p hp2

theorem alookup_aerase_some (l : List (α × β)) (a x : α) (v : β)
    (h : alookup (aerase l a) x = some v) : alookup l x = some v := by
  by_cases hx : x = a
  · subst hx
    rw [alookup_aerase_self] at h
    cases h
  · rw [alookup_aerase_ne _ _ _ hx] at h
    exact h

end SplitLemmas

namespace WebSocketService

/-- Closing the sockets of a room the client is not a member of does not
change its map entry at all. -/
theorem closeRoomClients_lookup_not_mem (room : List String) :
    ∀ (cl : List (String × ClientConnection)) (c : String), c ∉ room →
    alookup (closeRoomClients cl room) c = alookup cl c := by
  induction room with
  | nil => intro cl c _; rfl
  | cons x t ih =>
    intro cl c hc
    have hcx : c ≠ x := fun hEq => hc (hEq ▸ List.mem_cons_self x t)
    have hct : c ∉ t := fun h2 => hc (List.mem_cons_of_mem _ h2)
    cases hx : alookup cl x with
    | none =>
      have heq : closeRoomClients cl (x :: t) = closeRoomClients cl t := by
        simp [closeRoomClients, hx]
      rw [heq, ih cl c hct]
    | some client =>
      by_cases hop : client.wsOpen = true
      · have heq : closeRoomClients cl (x :: t) =
            closeRoomClients (aset cl x { client with wsOpen := false }) t := by
          simp [closeRoomClients, hx, hop]
        rw [heq, ih _ c hct, alookup_aset_ne _ _ _ _ hcx]
      · have heq : closeRoomClients cl (x :: t) = closeRoomClients cl t := by
          simp [closeRoomClients, hx, hop]
        rw [heq, ih cl c hct]

/-- The scan-phase invariant for the room of event `e`: its entry is intact,
its members' client entries are untouched, and every surviving room entry
was already present in the starting state. -/
def KickPre (s : WSState) (e : Nat) (l : List String) (st : WSState) : Prop :=
  alookup st.eventRooms e = some l ∧
  (∀ c ∈ l, alookup st.clients c = alookup s.clients c) ∧
  (∀ k v, alookup st.eventRooms k = some v → alookup s.eventRooms k = some v)

theorem kickOutParticipants_kickPre (s : WSState) (e : Nat) (l : List String)
    (hdisj : ∀ c ∈ l, ∀ e' l', e' ≠ e → alookup s.eventRooms e' = some l' →
      c ∉ l')
    (st : WSState) (e1 now : Nat) (hkey : e1 ≠ e) (hpre : KickPre s e l st) :
    KickPre s e l (kickOutParticipants st e1 now).1 := by
  obtain ⟨hroom, hcl, hsub⟩ := hpre
  cases hr : alookup st.eventRooms e1 with
  | none =>
    have heq : (kickOutParticipants st e1 now).1 = st := by
      simp [kickOutParticipants, hr]
    rw [heq]
    exact ⟨hroom, hcl, hsub⟩
  | some room1 =>
    have horig : alookup s.eventRooms e1 = some room1 := hsub e1 room1 hr
    have heq : (kickOutParticipants st e1 now).1 =
        { st with clients := closeRoomClients st.clients room1,
                  eventRooms := aerase st.eventRooms e1 } := by
      simp [kickOutParticipants, hr]
    rw [heq]
    refine ⟨?_, ?_, ?_⟩
    · rw [alookup_aerase_ne _ _ _ (Ne.symm hkey)]
      exact hroom
    · intro c hc
      have hnm : c ∉ room1 := hdisj c hc e1 room1 hkey horig
      rw [closeRoomClients_lookup_not_mem room1 st.clients c hnm]
      exact hcl c hc
    · intro k v hk
      exact hsub k v (alookup_aerase_some _ _ _ _ hk)

theorem kickScanStep_kickPre (s : WSState) (e : Nat) (l : List String)
    (hdisj : ∀ c ∈ l, ∀ e' l', e' ≠ e → alookup s.eventRooms e' = some l' →
      c ∉ l')
    (now : Nat) (acc : WSState × List Output) (entry : Nat × List String)
    (hkey : entry.1 ≠ e) (hpre : KickPre s e l acc.1) :
    KickPre s e l (kickScanStep now acc entry).1 := by
  by_cases h0 : entry.2 = []
  · simpa [kickScanStep, h0] using hpre
  · cases hh : entry.2.head? with
    | none => simpa [kickScanStep, h0, hh] using hpre
    | some firstId =>
      cases hcl : alookup acc.1.clients firstId with
      | none => simpa [kickScanStep, h0, hh, hcl] using hpre
      | some fc =>
        by_cases h1 : fc.eventStartTime ≠ 0 ∧ fc.eventEndTime ≠ 0
        · by_cases h2 : now > fc.eventEndTime
          · have heq : (kickScanStep now acc entry).1 =
                (kickOutParticipants acc.1 entry.1 now).1 := by
              simp [kickScanStep, h0, hh, hcl, h1.1, h1.2, h2]
            rw [heq]
            exact kickOutParticipants_kickPre s e l hdisj acc.1 entry.1 now
              hkey hpre
          · simpa [kickScanStep, h0, hh, hcl, h1.1, h1.2, h2] using hpre
        · simpa [kickScanStep, h0, hh, hcl, h1] using hpre

theorem foldl_kickPre (s : WSState) (e : Nat) (l : List String)
    (hdisj : ∀ c ∈ l, ∀ e' l', e' ≠ e → alookup s.eventRooms e' = some l' →
      c ∉ l')
    (now : Nat) (L : List (Nat × List String)) :
    ∀ acc : WSState × List Output, (∀ p ∈ L, p.1 ≠ e) → KickPre s e l acc.1 →
    KickPre s e l (L.foldl (kickScanStep now) acc).1 := by
  induction L with
  | nil => intro acc _ hpre; exact hpre
  | cons entry t ih =>
    intro acc hkeys hpre
    rw [List.foldl_cons]
    exact ih _ (fun p hp => hkeys p (List.mem_cons_of_mem _ hp))
      (kickScanStep_kickPre s e l hdisj now acc entry
        (hkeys entry (List.mem_cons_self entry t)) hpre)

/-- One scan iteration only ever appends outputs. -/
theorem kickScanStep_outputs_mono (now : Nat) (acc : WSState × List Output)
    (entry : Nat × List String) (o : Output) (ho : o ∈ acc.2) :
    o ∈ (kickScanStep now acc entry).2 := by
  by_cases h0 : entry.2 = []
  · simpa [kickScanStep, h0] using ho
  · cases hh : entry.2.head? with
    | none => simpa [kickScanStep, h0, hh] using ho
    | some firstId =>
      cases hcl : alookup acc.1.clients firstId with
      | none => simpa [kickScanStep, h0, hh, hcl] using ho
      | some fc =>
        by_cases h1 : fc.eventStartTime ≠ 0 ∧ fc.eventEndTime ≠ 0
        · by_cases h2 : now > fc.eventEndTime
          · have heq : (kickScanStep now acc entry).2 =
                acc.2 ++ (kickOutParticipants acc.1 entry.1 now).2 := by
              simp [kickScanStep, h0, hh, hcl, h1.1, h1.2, h2]
            rw [heq]
            exact List.mem_append_left _ ho
          · simpa [kickScanStep, h0, hh, hcl, h1.1, h1.2, h2] using ho
        · simpa [kickScanStep, h0, hh, hcl, h1] using ho

theorem foldl_outputs_mono (now : Nat) (L : List (Nat × List String)) :
    ∀ (acc : WSState × List Output) (o : Output), o ∈ acc.2 →
    o ∈ (L.foldl (kickScanStep now) acc).2 := by
  induction L with
  | nil => intro acc o ho; exact ho
  | cons entry t ih =>
    intro acc o ho
    rw [List.foldl_cons]
    exact ih _ o (kickScanStep_outputs_mono now acc entry o ho)

theorem foldl_rooms_absent (now e : Nat) (L : List (Nat × List String)) :
    ∀ acc : WSState × List Output, alookup acc.1.eventRooms e = none →
    alookup (L.foldl (kickScanStep now) acc).1.eventRooms e = none := by
  induction L with
  | nil => intro acc h; exact h
  | cons entry t ih =>
    intro acc h
    rw [List.foldl_cons]
    exact ih _ (kickScanStep_rooms_absent now acc entry e h)

end WebSocketService

open WebSocketService

/-- Protocol-respecting trace for the C4 counterexample: a client joins
event 9 with `eventStartTime = 0` and `eventEndTime = 5000`, then a
broadcaster tick runs at 6000, after the event has ended. -/
def zeroStartTrace : List Op :=
  [Op.message "a" (Inbound.wellFormed ⟨9, 1000, 1000, 0, 5000⟩) 1000,
   Op.tick 6000]

/-- C4 counterexample: the event's end time (5000) has passed at the tick
(6000) and the room is non-empty, yet the tick neither closes the member
nor deletes the room, because the scan treats the first member's zero
(falsy) `eventStartTime` as missing and skips the room. -/
theorem zero_start_room_survives_tick :
    5000 < 6000 ∧
    alookup (run initialState zeroStartTrace).1.eventRooms 9 = some ["a"] ∧
    Output.closed "a" 1000 "Event ended" ∉ (run initialState zeroStartTrace).2 := by
  decide

/-- C4 (amended): for every non-empty room whose first member is tracked
with nonzero `eventStartTime` and `eventEndTime` and whose `eventEndTime`
has passed at tick time, all of whose members are tracked with open sockets
and belong to no other room (the membership invariant), that broadcaster
tick sends every member an `event_ended` message, closes every member's
connection with code 1000, and deletes the room entry. -/
theorem expired_room_kicked_on_tick (s : WSState) (now e : Nat)
    (c0 : String) (rest : List String)
    (hmem : alookup s.eventRooms e = some (c0 :: rest))
    (hall : ∀ c ∈ c0 :: rest,
      ∃ cc, alookup s.clients c = some cc ∧ cc.wsOpen = true)
    (hfirst : ∀ cc0, alookup s.clients c0 = some cc0 →
      cc0.eventStartTime ≠ 0 ∧ cc0.eventEndTime ≠ 0 ∧ now > cc0.eventEndTime)
    (hdisj : ∀ c ∈ c0 :: rest, ∀ e' l', e' ≠ e →
      alookup s.eventRooms e' = some l' → c ∉ l') :
    alookup (broadcastTick s now).1.eventRooms e = none ∧
    ∀ c ∈ c0 :: rest,
      Output.sent c (OutMsg.eventEnded e
        (some "Event has ended. You will be disconnected.") now) ∈
        (broadcastTick s now).2 ∧
      Output.closed c 1000 "Event ended" ∈ (broadcastTick s now).2 := by
  obtain ⟨L1, L2, hsplit, hkeys⟩ := alookup_split s.eventRooms e (c0 :: rest) hmem
  obtain ⟨hroom1, hcl1, hsub1⟩ :=
    foldl_kickPre s e (c0 :: rest) hdisj now L1 (s, []) hkeys
      ⟨hmem, fun c _ => rfl, fun k v hk => hk⟩
  obtain ⟨cc0, hcc0, _⟩ := hall c0 (List.mem_cons_self _ _)
  obtain ⟨hst0, het0, hpast⟩ := hfirst cc0 hcc0
  have hcl0 : alookup (L1.foldl (kickScanStep now) (s, [])).1.clients c0 =
      some cc0 := by
    rw [hcl1 c0 (List.mem_cons_self _ _)]
    exact hcc0
  have hscan : kickScanStep now (L1.foldl (kickScanStep now) (s, []))
      (e, c0 :: rest) =
      ((kickOutParticipants (L1.foldl (kickScanStep now) (s, [])).1 e now).1,
       (L1.foldl (kickScanStep now) (s, [])).2 ++
       (kickOutParticipants (L1.foldl (kickScanStep now) (s, [])).1 e now).2) := by
    simp [kickScanStep, hcl0, hst0, het0, hpast]
  have hkick : kickOutParticipants (L1.foldl (kickScanStep now) (s, [])).1
      e now =
      ({ (L1.foldl (kickScanStep now) (s, [])).1 with
          clients := closeRoomClients
            (L1.foldl (kickScanStep now) (s, [])).1.clients (c0 :: rest),
          eventRooms := aerase
            (L1.foldl (kickScanStep now) (s, [])).1.eventRooms e },
       (c0 :: rest).flatMap (fun c =>
         match alookup (L1.foldl (kickScanStep now) (s, [])).1.clients c with
         | some client =>
           if client.wsOpen then
             [Output.sent c (OutMsg.eventEnded e
               (some "Event has ended. You will be disconnected.") now),
              Output.closed c 1000 "Event ended"]
           else []
         | none => [])) := by
    simp [kickOutParticipants, hroom1]
  have houts : ∀ c ∈ c0 :: rest,
      Output.sent c (OutMsg.eventEnded e
        (some "Event has ended. You will be disconnected.") now) ∈
        (kickOutParticipants (L1.foldl (kickScanStep now) (s, [])).1 e now).2 ∧
      Output.closed c 1000 "Event ended" ∈
        (kickOutParticipants (L1.foldl (kickScanStep now) (s, [])).1 e now).2 := by
    intro c hc
    obtain ⟨cc, hcc, hop⟩ := hall c hc
    have hccl : alookup (L1.foldl (kickScanStep now) (s, [])).1.clients c =
        some cc := by
      rw [hcl1 c hc]
      exact hcc
    rw [hkick]
    exact ⟨List.mem_flatMap.mpr ⟨c, hc, by simp [hccl, hop]⟩,
           List.mem_flatMap.mpr ⟨c, hc, by simp [hccl, hop]⟩⟩
  have hroomgone :
      alookup (kickOutParticipants (L1.foldl (kickScanStep now) (s, [])).1
        e now).1.eventRooms e = none := by
    rw [hkick]
    exact alookup_aerase_self _ _
  have hfold : checkAndKickExpiredEvents s now =
      L2.foldl (kickScanStep now)
        (kickScanStep now (L1.foldl (kickScanStep now) (s, []))
          (e, c0 :: rest)) := by
    rw [checkAndKickExpiredEvents, hsplit, List.foldl_append, List.foldl_cons]
  have hck1 : alookup (checkAndKickExpiredEvents s now).1.eventRooms e = none := by
    rw [hfold]
    apply foldl_rooms_absent
    rw [hscan]
    exact hroomgone
  have hck2 : ∀ c ∈ c0 :: rest,
      Output.sent c (OutMsg.eventEnded e
        (some "Event has ended. You will be disconnected.") now) ∈
        (checkAndKickExpiredEvents s now).2 ∧
      Output.closed c 1000 "Event ended" ∈
        (checkAndKickExpiredEvents s now).2 := by
    intro c hc
    obtain ⟨h1, h2⟩ := houts c hc
    rw [hfold]
    constructor
    · apply foldl_outputs_mono
      rw [hscan]
      exact List.mem_append_right _ h1
    · apply foldl_outputs_mono
      rw [hscan]
      exact List.mem_append_right _ h2
  have hbt1 : (broadcastTick s now).1 = (checkAndKickExpiredEvents s now).1 := rfl
  have hbt2 : ∀ o : Output, o ∈ (checkAndKickExpiredEvents s now).2 →
      o ∈ (broadcastTick s now).2 := by
    intro o ho
    exact List.mem_append_left _ ho
  refine ⟨by rw [hbt1]; exact hck1, ?_⟩
  intro c hc
  obtain ⟨h1, h2⟩ := hck2 c hc
  exact ⟨hbt2 _ h1, hbt2 _ h2⟩

/-- The concrete state for the C4 witness: one client in event 9 with
nonzero times, joined at 900. -/
def expiringRoomState : WSState :=
  (step initialState
    (Op.message "a" (Inbound.wellFormed ⟨9, 900, 900, 100, 5000⟩) 900)).1

/-- Witness for the amended C4: the tick at 6000 deletes event 9's room and
closes its only member. -/
theorem expired_room_kicked_on_tick_witness :
    alookup (broadcastTick expiringRoomState 6000).1.eventRooms 9 = none ∧
    Output.closed "a" 1000 "Event ended" ∈
      (broadcastTick expiringRoomState 6000).2 := by
  have h := expired_room_kicked_on_tick expiringRoomState 6000 9 "a" []
    (by decide)
    (by
      intro c hc
      fin_cases hc
      exact ⟨⟨true, 9, 100, 5000⟩, by decide, rfl⟩)
    (by
      intro cc0 hcc0
      rw [show alookup expiringRoomState.clients "a" =
        some ⟨true, 9, 100, 5000⟩ from by decide] at hcc0
      cases hcc0
      exact ⟨by decide, by decide, by decide⟩)
    (by
      intro c hc e' l' hne h'
      rw [show expiringRoomState.eventRooms = [(9, ["a"])] from by decide] at h'
      rw [alookup, if_neg (fun hEq => hne hEq.symm)] at h'
      cases h')
  exact ⟨h.1, (h.2 "a" (List.mem_cons_self _ _)).2⟩
